import Mathlib

/-!
Verification of the kiromon monitor (github.com/ukaji3/kiromon).

Shallow embedding of the Go sources.  Strings are modelled as lists of
unicode scalar values (`List Char`), matching Go's rune view of its
(valid-UTF-8) strings; wrappers over `String` mirror the Go signatures.
Wall-clock time is modelled as natural numbers (seconds, or detection
ticks where noted); Go's zero `time.Time` is modelled by `0`.
-/

/-! ## Detector: ANSI escape stripping (`stripAnsi`, internal/kiromon/prompt.go)

The Go source removes escape sequences with
`regexp.MustCompile` of
`\x1b\[[0-9;?]*[a-zA-Z]|\x1b\][^\x07]*\x07|\x1b\][^\x1b]*\x1b\\|\x1b[PX^_].*?(?:\x1b\\|\x07)|\x1b.|\?[0-9]+[hl]`
via `ReplaceAllString(s, "")`, then keeps only runes in `[32,127)`, then
`strings.TrimSpace`.  Go's `regexp` uses leftmost-first (Perl) alternation;
each alternative of this particular pattern matches deterministically
(every starred class is disjoint from what must follow it, and the lazy
`.*?` stops at the earliest terminator), so replacement is modelled by a
scanner that, at each position, tries the six alternatives in order and
deletes the match, or else keeps one rune and moves on. -/

def escChar : Char := Char.ofNat 27

def belChar : Char := Char.ofNat 7

def isCsiBody (c : Char) : Bool :=
  (48 ≤ c.toNat && c.toNat ≤ 57) || c = ';' || c = '?'

def isAsciiAlpha (c : Char) : Bool :=
  (65 ≤ c.toNat && c.toNat ≤ 90) || (97 ≤ c.toNat && c.toNat ≤ 122)

def isDigitCh (c : Char) : Bool :=
  48 ≤ c.toNat && c.toNat ≤ 57

/-- Length of the leading run of CSI-parameter runes (`[0-9;?]*`). -/
def csiRun : List Char → Nat
  | [] => 0
  | c :: rest => if isCsiBody c then csiRun rest + 1 else 0

/-- Length of the leading run of ASCII digits (`[0-9]*`). -/
def digitRun : List Char → Nat
  | [] => 0
  | c :: rest => if isDigitCh c then digitRun rest + 1 else 0

/-- `[^\x07]*\x07`: number of runes consumed up to and including the first
BEL, or `none` when no BEL occurs. -/
def belTerm : List Char → Option Nat
  | [] => none
  | c :: rest =>
    if c = belChar then some 1
    else match belTerm rest with
      | some n => some (n + 1)
      | none => none

/-- `[^\x1b]*\x1b\\`: number of runes consumed up to and including the
terminating `ESC \`; the starred class stops at the first ESC, so the
match fails if that ESC is not followed by a backslash. -/
def oscEscTerm : List Char → Option Nat
  | [] => none
  | c :: rest =>
    if c = escChar then
      match rest with
      | d :: _ => if d = '\\' then some 2 else none
      | [] => none
    else match oscEscTerm rest with
      | some n => some (n + 1)
      | none => none

/-- `.*?(?:\x1b\\|\x07)`: the lazy dot expands one rune at a time (never a
newline, as Go's `.` excludes `\n`), trying the terminator first; an ESC
not followed by a backslash is consumed by the dot (ESC is not `\n`). -/
def lazyTerm : List Char → Option Nat
  | [] => none
  | c :: rest =>
    if c = belChar then some 1
    else if c = escChar then
      match rest with
      | d :: _ =>
        if d = '\\' then some 2
        else match lazyTerm rest with
          | some n => some (n + 1)
          | none => none
      | [] => none
    else if c = '\n' then none
    else match lazyTerm rest with
      | some n => some (n + 1)
      | none => none

/-- Try the six alternatives of `ansiRegex` at the current position, in
the regex's alternation order, returning the length of the match. -/
def ansiMatch (s : List Char) : Option Nat :=
  match s with
  | [] => none
  | c :: rest =>
    if c = escChar then
      match rest with
      | [] => none
      | d :: rest2 =>
        if d = '[' then
          let k := csiRun rest2
          match rest2.drop k with
          | e :: _ => if isAsciiAlpha e then some (2 + k + 1) else some 2
          | [] => some 2
        else if d = ']' then
          match belTerm rest2 with
          | some n => some (2 + n)
          | none =>
            match oscEscTerm rest2 with
            | some n => some (2 + n)
            | none => some 2
        else if d = 'P' || d = 'X' || d = '^' || d = '_' then
          match lazyTerm rest2 with
          | some n => some (2 + n)
          | none => some 2
        else if d = '\n' then none
        else some 2
    else if c = '?' then
      let k := digitRun rest
      if k = 0 then none
      else match rest.drop k with
        | e :: _ => if e = 'h' || e = 'l' then some (1 + k + 1) else none
        | [] => none
    else none

/-- One pass of `ansiRegex.ReplaceAllString(s, "")`: delete each leftmost
non-overlapping match.  `fuel` only bounds recursion; it is initialised to
the length of the list, which suffices since every step consumes at least
one rune. -/
def ansiScanAux : Nat → List Char → List Char
  | 0, s => s
  | _ + 1, [] => []
  | fuel + 1, c :: rest =>
    match ansiMatch (c :: rest) with
    | some k => ansiScanAux fuel ((c :: rest).drop k)
    | none => c :: ansiScanAux fuel rest

def ansiScan (s : List Char) : List Char :=
  ansiScanAux s.length s

/-- Printable ASCII filter from `stripAnsi`: keep runes with
`32 <= r && r < 127`. -/
def isPrintable (c : Char) : Bool :=
  32 ≤ c.toNat && c.toNat < 127

/-- `unicode.IsSpace`, the predicate behind Go's `strings.TrimSpace`. -/
def isGoSpace (c : Char) : Bool :=
  ([9, 10, 11, 12, 13, 32, 133, 160, 5760,
    8192, 8193, 8194, 8195, 8196, 8197, 8198, 8199, 8200, 8201, 8202,
    8232, 8233, 8239, 8287, 12288] : List Nat).contains c.toNat

/-- `strings.TrimSpace` on the rune list. -/
def trimSpace (s : List Char) : List Char :=
  ((s.dropWhile isGoSpace).reverse.dropWhile isGoSpace).reverse

/-- `stripAnsi` from internal/kiromon/prompt.go (the identical copy in
main.go is the one the wrapper calls): regex replacement, printable
filter, trim. -/
def stripAnsiL (s : List Char) : List Char :=
  trimSpace ((ansiScan s).filter isPrintable)

def stripAnsi (s : String) : String :=
  ⟨stripAnsiL s.data⟩

/-! ## Detector: prompt matching (`matchPrompt`, internal/kiromon/prompt.go)

Custom and default prompt patterns are user-supplied compiled regular
expressions; the embedding abstracts a compiled pattern as its matching
predicate on the inspected line. -/

def hasSuffixL (suffix s : List Char) : Bool :=
  suffix.isSuffixOf s

/-- The default-pattern loop and suffix heuristic of `matchPrompt`
(everything after the custom-pattern check). -/
def matchPromptRest (line : List Char) : List (List Char → Bool) → Bool
  | p :: ps => if p line then true else matchPromptRest line ps
  | [] => hasSuffixL ['>', ' '] line || hasSuffixL ['>'] line

/-- `matchPrompt(line, customPattern, defaultPatterns)`: custom pattern
first, then the default patterns in order, then the `"> "`/`">"` suffix
heuristic. -/
def matchPrompt (line : List Char) (customPattern : Option (List Char → Bool))
    (defaultPatterns : List (List Char → Bool)) : Bool :=
  match customPattern with
  | some p => if p line then true else matchPromptRest line defaultPatterns
  | none => matchPromptRest line defaultPatterns

example : stripAnsi "hello world" = "hello world" := by decide

/-! ### Structural lemmas about trimming, filtering and the scanner -/

lemma head?_dropWhile_not (p : Char → Bool) :
    ∀ (l : List Char) (c : Char), (l.dropWhile p).head? = some c → p c = false := by
  intro l
  induction l with
  | nil => intro c h; simp [List.dropWhile] at h
  | cons a t ih =>
    intro c h
    by_cases ha : p a
    · rw [List.dropWhile_cons, if_pos ha] at h
      exact ih c h
    · rw [List.dropWhile_cons, if_neg ha] at h
      have hac : a = c := by simpa using h
      rw [← hac]
      exact Bool.eq_false_iff.mpr ha

lemma getLast?_dropWhile (p : Char → Bool) :
    ∀ l : List Char, l.dropWhile p ≠ [] → (l.dropWhile p).getLast? = l.getLast? := by
  intro l
  induction l with
  | nil => intro h; exact absurd rfl h
  | cons a t ih =>
    intro h
    by_cases ha : p a
    · have hd : (a :: t).dropWhile p = t.dropWhile p := by
        rw [List.dropWhile_cons]; simp [ha]
      rw [hd] at h ⊢
      have ht : t ≠ [] := by
        intro he; rw [he] at h; exact h rfl
      rw [ih h]
      cases t with
      | nil => exact absurd rfl ht
      | cons b u => simp [List.getLast?_cons_cons]
    · rw [List.dropWhile_cons]; simp [ha]

lemma trimSpace_head_not_space (l : List Char) (c : Char)
    (h : (trimSpace l).head? = some c) : isGoSpace c = false := by
  unfold trimSpace at h
  rw [List.head?_reverse] at h
  set m := (l.dropWhile isGoSpace).reverse with hm
  have hne : m.dropWhile isGoSpace ≠ [] := by
    intro he; rw [he] at h; simp at h
  rw [getLast?_dropWhile isGoSpace m hne] at h
  rw [hm, List.getLast?_reverse] at h
  exact head?_dropWhile_not isGoSpace _ c h

lemma trimSpace_getLast_not_space (l : List Char) (c : Char)
    (h : (trimSpace l).getLast? = some c) : isGoSpace c = false := by
  unfold trimSpace at h
  rw [List.getLast?_reverse] at h
  exact head?_dropWhile_not isGoSpace _ c h

lemma trimSpace_eq_self (l : List Char)
    (hh : ∀ c, l.head? = some c → isGoSpace c = false)
    (hl : ∀ c, l.getLast? = some c → isGoSpace c = false) :
    trimSpace l = l := by
  have step1 : l.dropWhile isGoSpace = l := by
    cases l with
    | nil => rfl
    | cons a t =>
      have := hh a (by simp)
      rw [List.dropWhile_cons]; simp [this]
  unfold trimSpace
  rw [step1]
  have step2 : l.reverse.dropWhile isGoSpace = l.reverse := by
    cases hrev : l.reverse with
    | nil => rfl
    | cons a t =>
      have haL : l.getLast? = some a := by
        rw [← List.head?_reverse, hrev]; rfl
      have := hl a haL
      rw [List.dropWhile_cons]; simp [this]
  rw [step2, List.reverse_reverse]

lemma mem_trimSpace (l : List Char) (c : Char) (h : c ∈ trimSpace l) : c ∈ l := by
  unfold trimSpace at h
  rw [List.mem_reverse] at h
  have h2 := (List.dropWhile_sublist isGoSpace).subset h
  rw [List.mem_reverse] at h2
  exact (List.dropWhile_sublist isGoSpace).subset h2

lemma ansiScanAux_no_match :
    ∀ (fuel : Nat) (l : List Char),
      (∀ n, ansiMatch (l.drop n) = none) → ansiScanAux fuel l = l := by
  intro fuel
  induction fuel with
  | zero => intro l _; rfl
  | succ m ih =>
    intro l h
    cases l with
    | nil => rfl
    | cons c rest =>
      have h0 : ansiMatch (c :: rest) = none := by
        have := h 0; simpa using this
      have hrest : ∀ n, ansiMatch (rest.drop n) = none := by
        intro n
        have := h (n + 1)
        simpa [List.drop_succ_cons] using this
      simp only [ansiScanAux, h0]
      rw [ih rest hrest]

lemma mem_stripAnsiL_printable (l : List Char) (c : Char)
    (h : c ∈ stripAnsiL l) : isPrintable c = true := by
  unfold stripAnsiL at h
  have h2 := mem_trimSpace _ c h
  exact List.of_mem_filter h2

lemma printable_not_space (c : Char) (hp : isPrintable c = true) (hne : c ≠ ' ') :
    isGoSpace c = false := by
  have hp' : 32 ≤ c.toNat ∧ c.toNat < 127 := by
    simpa [isPrintable] using hp
  have hc32 : c.toNat ≠ 32 := by
    intro he
    apply hne
    rw [← Char.ofNat_toNat c, he]
  simp only [isGoSpace, List.contains_cons, List.contains_nil,
    Bool.or_eq_false_iff, beq_eq_false_iff_ne, ne_eq, and_true]
  omega

/-- Core identity: on a printable-only rune list in which the escape regex
finds no match at any position, and which carries no leading or trailing
space, `stripAnsi` (list level) is the identity. -/
lemma stripAnsiL_eq_self (l : List Char)
    (hp : ∀ c ∈ l, isPrintable c = true)
    (hm : ∀ n, ansiMatch (l.drop n) = none)
    (hh : l.head? ≠ some ' ') (hl : l.getLast? ≠ some ' ') :
    stripAnsiL l = l := by
  unfold stripAnsiL ansiScan
  rw [ansiScanAux_no_match _ l hm]
  rw [List.filter_eq_self.mpr hp]
  apply trimSpace_eq_self
  · intro c hc
    apply printable_not_space c (hp c (List.mem_of_mem_head? hc))
    intro he; rw [he] at hc; exact hh hc
  · intro c hc
    apply printable_not_space c (hp c (List.mem_of_mem_getLast? hc))
    intro he; rw [he] at hc; exact hl hc

/-! ### Claims C6, C7, C8 -/

lemma matchPromptRest_empty_of (dps : List (List Char → Bool))
    (hd : ∀ p ∈ dps, p [] = false) : matchPromptRest [] dps = false := by
  induction dps with
  | nil => rfl
  | cons p ps ih =>
    have hp := hd p (by simp)
    simp only [matchPromptRest, hp, if_false]
    exact ih fun q hq => hd q (List.mem_cons_of_mem p hq)

/-- C6 (counterexample): the claim quantifies over every custom prompt
pattern, but `matchPrompt` contains no explicit empty-line exclusion: a
custom pattern that itself matches the empty string (such as the regular
expression `^$`, modelled by its matching predicate) makes the empty
current line match. -/
theorem matchPrompt_empty_line_matched_by_custom_pattern :
    matchPrompt [] (some (fun l => l.isEmpty)) [] = true := rfl

/-- C6 (amended): an empty current line never matches provided no supplied
custom pattern and no default pattern itself matches the empty string (as
is the case for the shipped defaults); there is no explicit empty-line
exclusion in the code, so a pattern matching the empty string defeats the
property. -/
theorem matchPrompt_empty_line_of_patterns_not_matching_empty
    (cp : Option (List Char → Bool)) (dps : List (List Char → Bool))
    (hc : ∀ p, cp = some p → p [] = false)
    (hd : ∀ p ∈ dps, p [] = false) :
    matchPrompt [] cp dps = false := by
  cases cp with
  | none => exact matchPromptRest_empty_of dps hd
  | some p =>
    have hp := hc p rfl
    simp only [matchPrompt, hp, if_false]
    exact matchPromptRest_empty_of dps hd

/-- The shipped default prompt pattern `!> ` (config.go,
`DefaultPromptPatterns`), whose compiled regular expression matches a line
iff it contains the literal substring. -/
def kiroDefaultPattern : List Char → Bool := fun l => decide ("!> ".data <:+: l)

/-- C6 (witness): under the shipped configuration — no custom pattern and
the default `!> ` pattern — the empty line does not match. -/
theorem matchPrompt_empty_line_default_config :
    matchPrompt [] none [kiroDefaultPattern] = false :=
  matchPrompt_empty_line_of_patterns_not_matching_empty none [kiroDefaultPattern]
    (fun _ h => nomatch h)
    (fun p hp => by rw [List.mem_singleton] at hp; rw [hp]; decide)

lemma ansiMatch_abc_drop : ∀ n : Nat, ansiMatch ("abc".data.drop n) = none := by
  intro n
  match n with
  | 0 => decide
  | 1 => decide
  | 2 => decide
  | m + 3 =>
    have hlen : "abc".data.length ≤ m + 3 := by
      have h3 : "abc".data.length = 3 := by decide
      omega
    rw [List.drop_eq_nil_of_le hlen]
    rfl

/-- C7 (counterexample): `"?25h"` consists only of printable ASCII
(range 32–126), yet `stripAnsi` deletes it entirely, because the last
alternative `\?[0-9]+[hl]` of the escape regex is built from printable
characters; so stripping is not the identity on printable-only strings. -/
theorem stripAnsi_moves_printable_toggle_sequence :
    (∀ c ∈ "?25h".data, isPrintable c = true) ∧ stripAnsi "?25h" ≠ "?25h" := by
  constructor
  · decide
  · decide

/-- C7 (amended): `stripAnsi` is the identity on a printable-ASCII-only
string provided additionally that the escape regex finds no match in it
(its `\?[0-9]+[hl]` alternative is made of printable characters) and that
the string has no leading or trailing space (which `strings.TrimSpace`
would delete). -/
theorem stripAnsi_identity_on_clean_printable (s : String)
    (hp : ∀ c ∈ s.data, isPrintable c = true)
    (hm : ∀ n, ansiMatch (s.data.drop n) = none)
    (hh : s.data.head? ≠ some ' ') (hl : s.data.getLast? ≠ some ' ') :
    stripAnsi s = s := by
  have h := stripAnsiL_eq_self s.data hp hm hh hl
  unfold stripAnsi
  rw [h]

/-- C7 (witness): the amended identity at the concrete clean string
`"abc"`. -/
theorem stripAnsi_identity_on_clean_printable_witness :
    stripAnsi "abc" = "abc" :=
  stripAnsi_identity_on_clean_printable "abc" (by decide) ansiMatch_abc_drop
    (by decide) (by decide)

/-- C8 (counterexample): stripping is not idempotent: in `"?1\th"` the tab
is a control character removed by the printable filter (the regex itself
finds no match), producing `"?1h"`, in which a second pass's regex then
matches the printable alternative `\?[0-9]+[hl]` and deletes everything. -/
theorem stripAnsi_not_idempotent :
    stripAnsi (stripAnsi "?1\th") ≠ stripAnsi "?1\th" := by decide

/-- C8 (amended): re-stripping yields the same string whenever the escape
regex finds no match in the first pass's output (the printable filter and
trim are idempotent, but control-character removal can create a fresh
`\?[0-9]+[hl]` match, defeating idempotence in general). -/
theorem stripAnsi_idempotent_on_scan_fixed_output (s : String)
    (hm : ∀ n, ansiMatch ((stripAnsiL s.data).drop n) = none) :
    stripAnsi (stripAnsi s) = stripAnsi s := by
  unfold stripAnsi
  congr 1
  apply stripAnsiL_eq_self
  · intro c hc; exact mem_stripAnsiL_printable s.data c hc
  · exact hm
  · intro hcontra
    simp only [stripAnsiL] at hcontra
    have hfs := trimSpace_head_not_space _ ' ' hcontra
    exact absurd hfs (by decide)
  · intro hcontra
    simp only [stripAnsiL] at hcontra
    have hfs := trimSpace_getLast_not_space _ ' ' hcontra
    exact absurd hfs (by decide)

/-- C8 (witness): the amended idempotence at the concrete string `"abc"`,
on which the first pass is already a fixed point of the scanner. -/
theorem stripAnsi_idempotent_on_scan_fixed_output_witness :
    stripAnsi (stripAnsi "abc") = stripAnsi "abc" :=
  stripAnsi_idempotent_on_scan_fixed_output "abc" (by
    have he : stripAnsiL "abc".data = "abc".data := by decide
    rw [he]
    exact ansiMatch_abc_drop)

/-! ## Message templating (notify.go)

`formatTimeJapanese` destructures its `time.Time` argument into hour,
minute and second before any other use, so it is embedded as a function of
those three components; `formatDuration` uses only the whole number of
seconds of its `time.Duration` (non-negative for the spans arising here).
Decimal rendering mirrors `fmt.Sprintf("%d", n)`. -/

def digitChar (d : Nat) : Char := Char.ofNat (48 + d)

def natToCharsAux : Nat → Nat → List Char → List Char
  | 0, _, acc => acc
  | fuel + 1, n, acc =>
    if n < 10 then digitChar n :: acc
    else natToCharsAux fuel (n / 10) (digitChar (n % 10) :: acc)

def natToChars (n : Nat) : List Char := natToCharsAux (n + 1) n []

def natStr (n : Nat) : String := ⟨natToChars n⟩

/-- `formatTimeJapanese` (notify.go): builds the parts list exactly as the
source does — hour part when `h > 0`, minute part when `m > 0 || h > 0`,
seconds part always — and joins with the empty separator. -/
def formatTimeJapanese (h m s : Nat) : String :=
  let parts : List String := []
  let parts := if 0 < h then parts ++ [natStr h ++ "時"] else parts
  let parts := if 0 < m ∨ 0 < h then parts ++ [natStr m ++ "分"] else parts
  let parts := parts ++ [natStr s ++ "秒"]
  String.join parts

/-- `formatDuration` (notify.go): splits the total seconds into h/m/s and
applies the same zero-suppression rule, with `時間` for the hour unit. -/
def formatDuration (totalSeconds : Nat) : String :=
  let h := totalSeconds / 3600
  let m := (totalSeconds % 3600) / 60
  let s := totalSeconds % 60
  let parts : List String := []
  let parts := if 0 < h then parts ++ [natStr h ++ "時間"] else parts
  let parts := if 0 < m ∨ 0 < h then parts ++ [natStr m ++ "分"] else parts
  let parts := parts ++ [natStr s ++ "秒"]
  String.join parts

/-- C9: the zero-suppression rule of the two renderers, at the inputs the
spec enumerates: midnight renders as seconds only; 14:30:45 renders all
three components; 10:00:15 keeps the zero minute because the hour is
nonzero; a zero duration renders as seconds only; 1h00m30s keeps the zero
minute. -/
theorem format_zero_suppression :
    formatTimeJapanese 0 0 0 = "0秒" ∧
    formatTimeJapanese 14 30 45 = "14時30分45秒" ∧
    formatTimeJapanese 10 0 15 = "10時0分15秒" ∧
    formatDuration 0 = "0秒" ∧
    formatDuration 3630 = "1時間0分30秒" := by decide

/-- `strings.ReplaceAll` on rune lists (both placeholder patterns used by
the program are non-empty, so the empty-pattern case never arises). -/
def replaceAllAux : Nat → List Char → List Char → List Char → List Char
  | 0, s, _, _ => s
  | _ + 1, [], _, _ => []
  | fuel + 1, c :: rest, pat, rep =>
    if pat ≠ [] ∧ pat.isPrefixOf (c :: rest) then
      rep ++ replaceAllAux fuel ((c :: rest).drop pat.length) pat rep
    else
      c :: replaceAllAux fuel rest pat rep

def replaceAll (s pat rep : List Char) : List Char := replaceAllAux s.length s pat rep

def placeholderTime : String := "\x7btime\x7d"

def placeholderDuration : String := "\x7bduration\x7d"

/-- `replacePlaceholders` (notify.go).  `now` and `taskStart` are absolute
wall-clock seconds; `taskStart = 0` models Go's zero `time.Time` (the
default of the daemon's `taskStartTimes` map).  The wall clock's
hour/minute/second are derived from the absolute seconds. -/
def replacePlaceholders (msg : List Char) (taskStart now : Nat) : List Char :=
  let withTime := replaceAll msg placeholderTime.data
    (formatTimeJapanese (now / 3600 % 24) (now / 60 % 60) (now % 60)).data
  if taskStart ≠ 0 then
    replaceAll withTime placeholderDuration.data (formatDuration (now - taskStart)).data
  else
    replaceAll withTime placeholderDuration.data "0秒".data

/-! ## Debounce & notification state machines

Two variants exist in the source: `checkAndNotify` (notify.go, used by the
monitor's daemon loop) and the status-updater tick of `runWrapper`
(wrapper.go, standalone mode).  Both are embedded as step functions on the
per-pid notification state, taking the observed state for this tick (the
monitor derives it from the polled record and an optional re-applied
custom pattern; the wrapper from its own Detector) and the current time.
The returned `Option` is the message passed to the external notify
command when the code would invoke it (the configured command is assumed
non-empty). -/

def StateRunning : String := "running"

def StateWaiting : String := "waiting"

def StateStopped : String := "stopped"

/-- Per-pid state of the monitor's notifier: `lastStates[pid]` (the empty
string is the map's absent default) and `taskStartTimes[pid]` (zero time
when absent). -/
structure DaemonPidState where
  lastState : String
  taskStart : Nat
deriving DecidableEq, Repr

def initDaemonPid : DaemonPidState := ⟨"", 0⟩

/-- Observed-state derivation at the top of `checkAndNotify`: a custom
pattern, when supplied, overrides the record's state field. -/
def deriveState (stateField : String) (customPattern : Option (List Char → Bool))
    (lastLine : List Char) : String :=
  match customPattern with
  | some p => if p lastLine then StateWaiting else StateRunning
  | none => stateField

/-- `checkAndNotify` (notify.go): fires on the very tick the observed
state differs from the previously observed one; the message is empty
(hence no command runs) on the first observation of a pid. -/
def checkAndNotify (observed : String) (now : Nat) (startMsg endMsg : List Char)
    (e : DaemonPidState) : DaemonPidState × Option (List Char) :=
  if e.lastState ≠ observed then
    let message : List Char :=
      if observed = StateWaiting then replacePlaceholders endMsg e.taskStart now
      else if observed = StateRunning ∧ e.lastState = StateWaiting then
        replacePlaceholders startMsg e.taskStart now
      else []
    let taskStart' :=
      if observed = StateRunning ∧ e.lastState = StateWaiting then now
      else if observed = StateRunning ∧ e.lastState = "" then now
      else e.taskStart
    let fired := if message ≠ [] ∧ e.lastState ≠ "" then some message else none
    (⟨observed, taskStart'⟩, fired)
  else (e, none)

/-- Notification state of the wrapper's status-updater goroutine
(wrapper.go): `lastState`, `lastNotifiedState`, `stateChangeTime` and the
standalone config's `TaskStartTime`. -/
structure WrapperNotifyState where
  lastState : String
  lastNotifiedState : String
  stateChangeTime : Nat
  taskStart : Nat
deriving DecidableEq, Repr

def initWrapperNotify : WrapperNotifyState := ⟨"", "", 0, 0⟩

/-- One tick of the wrapper's standalone notification logic (wrapper.go):
initialise on the first tick, restart the debounce timer on a change, and
notify only once the observed state has been stable for `debounceDelay`
and differs from the last notified state, suppressing waiting
notifications of tasks shorter than `minDuration`. -/
def wrapperNotifyStep (observed : String) (now debounceDelay minDuration : Nat)
    (startMsg endMsg : List Char) (w : WrapperNotifyState) :
    WrapperNotifyState × Option (List Char) :=
  if w.lastState = "" then
    (⟨observed, observed, now, now⟩, none)
  else if w.lastState ≠ observed then
    ({ w with lastState := observed, stateChangeTime := now }, none)
  else if w.lastState = observed ∧ w.lastNotifiedState ≠ observed then
    if debounceDelay ≤ now - w.stateChangeTime then
      if observed = StateWaiting then
        if 0 < minDuration ∧ now - w.taskStart < minDuration then
          ({ w with lastNotifiedState := observed }, none)
        else
          let message := replacePlaceholders endMsg w.taskStart now
          ({ w with lastNotifiedState := observed },
            if message ≠ [] then some message else none)
      else if observed = StateRunning then
        let message := replacePlaceholders startMsg w.taskStart now
        ({ w with lastNotifiedState := observed, taskStart := now },
          if message ≠ [] then some message else none)
      else
        ({ w with lastNotifiedState := observed }, none)
    else (w, none)
  else (w, none)

/-- Observations sampled once per tick starting at time `t`. -/
def ticksFrom : Nat → List String → List (Nat × String)
  | _, [] => []
  | t, s :: rest => (t, s) :: ticksFrom (t + 1) rest

/-- Run the wrapper machine over a timed observation trace, collecting the
fired notifications with their tick times. -/
def runWrapperNotify (debounceDelay minDuration : Nat) (startMsg endMsg : List Char) :
    List (Nat × String) → WrapperNotifyState → List (Nat × List Char)
  | [], _ => []
  | (t, st) :: rest, w =>
    match wrapperNotifyStep st t debounceDelay minDuration startMsg endMsg w with
    | (w', some m) => (t, m) :: runWrapperNotify debounceDelay minDuration startMsg endMsg rest w'
    | (w', none) => runWrapperNotify debounceDelay minDuration startMsg endMsg rest w'

/-- Run the monitor machine over the same kind of trace. -/
def runCheckAndNotify (startMsg endMsg : List Char) :
    List (Nat × String) → DaemonPidState → List (Nat × List Char)
  | [], _ => []
  | (t, st) :: rest, e =>
    match checkAndNotify st t startMsg endMsg e with
    | (e', some m) => (t, m) :: runCheckAndNotify startMsg endMsg rest e'
    | (e', none) => runCheckAndNotify startMsg endMsg rest e'

example :
    runCheckAndNotify "start".data "end".data
      (ticksFrom 1 [StateRunning, StateWaiting]) initDaemonPid = [(2, "end".data)] := by decide

/-! ### Claims C1 and C4 -/

/-- Message selection of the monitor's `checkAndNotify` on a state change:
the end template on entering waiting, the start template on a
waiting-to-running transition, no message otherwise. -/
def monitorTransitionMessage (observed lastState : String) (startMsg endMsg : List Char)
    (taskStart now : Nat) : List Char :=
  if observed = StateWaiting then replacePlaceholders endMsg taskStart now
  else if observed = StateRunning ∧ lastState = StateWaiting then
    replacePlaceholders startMsg taskStart now
  else []

/-- Message selection of the wrapper's debounced notifier once the dwell
requirement is met: the end template for a stable waiting state, the start
template for a stable running state. -/
def wrapperTransitionMessage (observed : String) (startMsg endMsg : List Char)
    (taskStart now : Nat) : List Char :=
  if observed = StateWaiting then replacePlaceholders endMsg taskStart now
  else if observed = StateRunning then replacePlaceholders startMsg taskStart now
  else []

/-- C1 (counterexample): over the observed sequence [running, waiting]
with the default debounce of 2 ticks, the monitor's machine fires the end
notification at the second tick while the wrapper's machine fires nothing,
so the two embedded machines do not fire the same notifications on the
same observation sequence. -/
theorem wrapper_monitor_notifications_differ :
    runCheckAndNotify "start".data "end".data
        (ticksFrom 1 [StateRunning, StateWaiting]) initDaemonPid = [(2, "end".data)]
    ∧ runWrapperNotify 2 0 "start".data "end".data
        (ticksFrom 1 [StateRunning, StateWaiting]) initWrapperNotify = [] := by decide

/-- C1 (amended): the two machines share the templating semantics — both
render through `replacePlaceholders`, choosing the end template on a
transition into waiting and the start template on one back to running —
but their transition semantics are not identical: `checkAndNotify` fires
at the very tick the observed state differs from the previously observed
one (no debounce dwell, suppressing only a pid's first observation), while
the wrapper fires only at a tick whose observation equals the previous one,
differs from the last notified state, and whose state change is at least
`debounceDelay` old, additionally suppressing waiting notifications of
tasks shorter than `minDuration`. -/
theorem notify_machines_characterization (observed last lastN : String)
    (chg task now d minDur : Nat) (sm em : List Char) :
    (checkAndNotify observed now sm em ⟨last, task⟩).2 =
      (if last ≠ observed ∧ last ≠ ""
          ∧ monitorTransitionMessage observed last sm em task now ≠ []
       then some (monitorTransitionMessage observed last sm em task now) else none)
    ∧ (wrapperNotifyStep observed now d minDur sm em ⟨last, lastN, chg, task⟩).2 =
      (if last ≠ "" ∧ last = observed ∧ lastN ≠ observed ∧ d ≤ now - chg
          ∧ ¬(observed = StateWaiting ∧ 0 < minDur ∧ now - task < minDur)
          ∧ wrapperTransitionMessage observed sm em task now ≠ []
       then some (wrapperTransitionMessage observed sm em task now) else none) := by
  constructor
  · unfold checkAndNotify monitorTransitionMessage
    by_cases hA : last = observed <;> simp [hA] <;> split_ifs <;> simp_all
  · unfold wrapperNotifyStep wrapperTransitionMessage
    by_cases h0 : last = "" <;> by_cases hA : last = observed <;>
      simp [h0, hA] <;> split_ifs <;> simp_all <;> omega

/-- C4 (counterexample): with a debounce window of 3 ticks — which is "at
least 2 ticks" — the wrapper machine fires no notification at all over
[running, running, waiting, waiting, waiting]: no tick of the five-sample
trace reaches the required stability, so "exactly one notification fires"
fails for debounce windows above 2 ticks. -/
theorem wrapper_debounce_three_ticks_silent :
    2 ≤ 3
    ∧ runWrapperNotify 3 0 "start".data "end".data
        (ticksFrom 1 [StateRunning, StateRunning, StateWaiting, StateWaiting, StateWaiting])
        initWrapperNotify = [] := by decide

/-- C4 (amended): over [running, running, waiting, waiting, waiting]
sampled at ticks 1..5 (the change to waiting is observed at tick 3), the
wrapper machine fires exactly one end notification, at the first tick at
which waiting has been stable for the debounce window — tick 4 for
windows of at most 1 tick, tick 5 for the default window of exactly 2
ticks (1 s debounce at 500 ms ticks) — and fires nothing when the window
exceeds 2 ticks, since no tick of the trace attains that stability. -/
theorem wrapper_debounce_rrwww_characterization (d : Nat) :
    runWrapperNotify d 0 "start".data "end".data
      (ticksFrom 1 [StateRunning, StateRunning, StateWaiting, StateWaiting, StateWaiting])
      initWrapperNotify =
      (if d ≤ 1 then [(4, "end".data)] else if d = 2 then [(5, "end".data)] else []) := by
  match d with
  | 0 => decide
  | 1 => decide
  | 2 => decide
  | n + 3 =>
    have h4 : ¬ (n + 3 ≤ 4 - 3) := by omega
    have h5 : ¬ (n + 3 ≤ 5 - 3) := by omega
    have hr1 : ¬ (n + 3 ≤ 1) := by omega
    have hr2 : ¬ (n + 3 = 2) := by omega
    simp +decide [runWrapperNotify, wrapperNotifyStep, ticksFrom, initWrapperNotify,
      StateRunning, StateWaiting, h4, h5, hr1, hr2]

/-! ## Status Store data model and consumers (main.go)

`Status` mirrors the Go struct field for field.  The `time.Time` fields
are modelled by their observable calendar components at second precision
(the JSON codec renders RFC3339; the monotonic reading is dropped by
marshalling, the claims require only second-level fidelity, and writer and
reader share one locale, so the zone offset is elided).  `IdleSeconds` is
`float64` in Go; it is modelled as a whole number of seconds, float
formatting being outside the embedding.  Directories are modelled as
association lists from file base name to the outcome of
`readStatusWithLock` (`none` = unreadable or undecodable), and the
`syscall.Kill(pid, 0)` probe as a predicate `alive`. -/

structure DateTime where
  year : Nat
  month : Nat
  day : Nat
  hour : Nat
  minute : Nat
  second : Nat
deriving DecidableEq, Repr

structure Status where
  state : String
  command : String
  pid : Int
  startTime : DateTime
  updatedAt : DateTime
  lastLines : List String
  lastLine : String
  promptMatched : Bool
  idleSeconds : Nat
deriving DecidableEq, Repr

def hasPrefixL (pre s : List Char) : Bool :=
  pre.isPrefixOf s

/-- `getStatusFileWithPID` (main.go): the file's base name
`<name>-<pid>.json` (the status directory prefix is common to all
consumers and elided). -/
def getStatusFileWithPID (name : String) (pid : Nat) : String :=
  name ++ "-" ++ natStr pid ++ ".json"

/-- The per-entry match condition of `showSingleStatus`'s by-name scan
(main.go): `strings.HasPrefix(entry.Name(), name + "-") &&
strings.HasSuffix(entry.Name(), ".json")`. -/
def matchesByName (name fname : String) : Bool :=
  hasPrefixL (name ++ "-").data fname.data && hasSuffixL ".json".data fname.data

/-- The per-entry match condition of `runStatusDaemon`'s `checkStatus`
scan (main.go): suffix `.json`, then either the exact file `name.json` or
the prefix `name + "-"`. -/
def daemonScanMatches (name fname : String) : Bool :=
  hasSuffixL ".json".data fname.data &&
    ((fname == name ++ ".json") || hasPrefixL (name ++ "-").data fname.data)

/-- `listProcesses` (main.go): per `.json` entry, read (errors are skipped
without deletion), probe liveness only when the recorded state is not
`stopped`, deleting on a failed probe; returns (deleted files, listed
entries). -/
def listProcessesScan (alive : Int → Bool) :
    List (String × Option Status) → List String × List (String × Status)
  | [] => ([], [])
  | (fname, content) :: rest =>
    let prev := listProcessesScan alive rest
    if hasSuffixL ".json".data fname.data then
      match content with
      | none => prev
      | some st =>
        if st.state ≠ StateStopped ∧ alive st.pid = false then
          (fname :: prev.1, prev.2)
        else (prev.1, (fname, st) :: prev.2)
    else prev

/-- The by-name scanning branch of `showSingleStatus` (main.go, `pid = 0`):
collect matching files, skip unreadable ones, delete those whose pid fails
the liveness probe, print the rest; returns (printed, deleted). -/
def showSingleStatusScan (alive : Int → Bool) (name : String) :
    List (String × Option Status) → List (String × Status) × List String
  | [] => ([], [])
  | (fname, content) :: rest =>
    let prev := showSingleStatusScan alive name rest
    if matchesByName name fname then
      match content with
      | none => prev
      | some st =>
        if alive st.pid then ((fname, st) :: prev.1, prev.2)
        else (prev.1, fname :: prev.2)
    else prev

/-- The all-instances branch of `runStatusDaemon`'s `checkStatus`
(main.go): matching files are read (read errors skipped), dead pids are
deleted, live ones handed to `checkAndNotify`; returns (notify targets,
deleted). -/
def runStatusDaemonScan (alive : Int → Bool) (name : String) :
    List (String × Option Status) → List (String × Status) × List String
  | [] => ([], [])
  | (fname, content) :: rest =>
    let prev := runStatusDaemonScan alive name rest
    if daemonScanMatches name fname then
      match content with
      | none => prev
      | some st =>
        if alive st.pid then ((fname, st) :: prev.1, prev.2)
        else (prev.1, fname :: prev.2)
    else prev

/-- The non-daemon path of `showStatusByPID` (main.go): locate the first
file with suffix `-<pid>.json` (`findStatusFileByPID`), read it, print it.
It performs no liveness probe and never deletes; the unused probe
parameter is taken to make that visible in the signature.  Returns
(printed record, deleted files). -/
def showStatusByPIDView (_alive : Int → Bool) (pid : Nat)
    (dir : List (String × Option Status)) : Option Status × List String :=
  match dir.find? (fun e => hasSuffixL ("-" ++ natStr pid ++ ".json").data e.1.data) with
  | none => (none, [])
  | some (_, none) => (none, [])
  | some (_, some st) => (some st, [])

/-- A directory entry as seen by `cleanupStaleFiles`: base name, whether
the modification time is over 24 hours old, and the read/decode outcome
(`none` = `os.ReadFile` error, `some none` = `json.Unmarshal` error). -/
structure DirEntry where
  fname : String
  ageOver24h : Bool
  raw : Option (Option Status)
deriving DecidableEq, Repr

/-- `cleanupStaleFiles` (main.go): per `.json` entry, delete when too old;
otherwise skip on read error, delete on decode error, and delete when the
recorded pid fails the liveness probe; returns the deleted files. -/
def cleanupStaleFiles (alive : Int → Bool) : List DirEntry → List String
  | [] => []
  | e :: rest =>
    let prev := cleanupStaleFiles alive rest
    if hasSuffixL ".json".data e.fname.data then
      if e.ageOver24h then e.fname :: prev
      else match e.raw with
        | none => prev
        | some none => e.fname :: prev
        | some (some st) => if alive st.pid then prev else e.fname :: prev
    else prev

/-! ### Claim C2 -/

lemma showSingleStatusScan_removes_dead (alive : Int → Bool) (name : String) :
    ∀ (dir : List (String × Option Status)) (fname : String) (st : Status),
      (fname, some st) ∈ dir → matchesByName name fname = true →
      alive st.pid = false → fname ∈ (showSingleStatusScan alive name dir).2 := by
  intro dir
  induction dir with
  | nil => intro fname st h _ _; simp at h
  | cons hd rest ih =>
    intro fname st hmem hmatch hdead
    rcases List.mem_cons.mp hmem with he | he
    · have hhd : hd = (fname, some st) := he.symm
      subst hhd
      simp only [showSingleStatusScan, hmatch, if_true, hdead]
      simp
    · rcases hd with ⟨fn, cont⟩
      have hr := ih fname st he hmatch hdead
      simp only [showSingleStatusScan]
      by_cases hm : matchesByName name fn
      · simp only [hm, if_true]
        cases cont with
        | none => exact hr
        | some st2 =>
          by_cases ha : alive st2.pid
          · simp only [ha, if_true]; exact hr
          · simp only [ha, if_false]; exact List.mem_cons_of_mem _ hr
      · simp only [hm, if_false]; exact hr

lemma runStatusDaemonScan_removes_dead (alive : Int → Bool) (name : String) :
    ∀ (dir : List (String × Option Status)) (fname : String) (st : Status),
      (fname, some st) ∈ dir → daemonScanMatches name fname = true →
      alive st.pid = false → fname ∈ (runStatusDaemonScan alive name dir).2 := by
  intro dir
  induction dir with
  | nil => intro fname st h _ _; simp at h
  | cons hd rest ih =>
    intro fname st hmem hmatch hdead
    rcases List.mem_cons.mp hmem with he | he
    · have hhd : hd = (fname, some st) := he.symm
      subst hhd
      simp only [runStatusDaemonScan, hmatch, if_true, hdead]
      simp
    · rcases hd with ⟨fn, cont⟩
      have hr := ih fname st he hmatch hdead
      simp only [runStatusDaemonScan]
      by_cases hm : daemonScanMatches name fn
      · simp only [hm, if_true]
        cases cont with
        | none => exact hr
        | some st2 =>
          by_cases ha : alive st2.pid
          · simp only [ha, if_true]; exact hr
          · simp only [ha, if_false]; exact List.mem_cons_of_mem _ hr
      · simp only [hm, if_false]; exact hr

lemma cleanupStaleFiles_removes_dead (alive : Int → Bool) :
    ∀ (entries : List DirEntry) (e : DirEntry) (st : Status),
      e ∈ entries → hasSuffixL ".json".data e.fname.data = true →
      e.raw = some (some st) → alive st.pid = false →
      e.fname ∈ cleanupStaleFiles alive entries := by
  intro entries
  induction entries with
  | nil => intro e st h _ _ _; simp at h
  | cons hd rest ih =>
    intro e st hmem hsuf hraw hdead
    rcases List.mem_cons.mp hmem with he | he
    · have hhd : hd = e := he.symm
      subst hhd
      simp only [cleanupStaleFiles, hsuf, if_true, hraw, hdead]
      by_cases hage : hd.ageOver24h
      · simp [hage]
      · simp [hage]
    · have hr := ih e st he hsuf hraw hdead
      simp only [cleanupStaleFiles]
      by_cases hs : hasSuffixL ".json".data hd.fname.data
      · simp only [hs, if_true]
        by_cases hage : hd.ageOver24h
        · simp only [hage, if_true]; exact List.mem_cons_of_mem _ hr
        · simp only [hage, if_false]
          cases hraw2 : hd.raw with
          | none => exact hr
          | some inner =>
            cases inner with
            | none => exact List.mem_cons_of_mem _ hr
            | some st2 =>
              by_cases ha : alive st2.pid
              · simp only [ha, if_true]; exact hr
              · simp only [ha, if_false]; exact List.mem_cons_of_mem _ hr
      · simp only [hs, if_false]; exact hr

lemma listProcessesScan_removes_dead_nonstopped (alive : Int → Bool) :
    ∀ (dir : List (String × Option Status)) (fname : String) (st : Status),
      (fname, some st) ∈ dir → hasSuffixL ".json".data fname.data = true →
      st.state ≠ StateStopped → alive st.pid = false →
      fname ∈ (listProcessesScan alive dir).1 := by
  intro dir
  induction dir with
  | nil => intro fname st h _ _ _; simp at h
  | cons hd rest ih =>
    intro fname st hmem hsuf hstate hdead
    rcases List.mem_cons.mp hmem with he | he
    · have hhd : hd = (fname, some st) := he.symm
      subst hhd
      simp only [listProcessesScan, hsuf, if_true]
      rw [if_pos ⟨hstate, hdead⟩]
      simp
    · rcases hd with ⟨fn, cont⟩
      have hr := ih fname st he hsuf hstate hdead
      simp only [listProcessesScan]
      by_cases hs : hasSuffixL ".json".data fn.data
      · simp only [hs, if_true]
        cases cont with
        | none => exact hr
        | some st2 =>
          dsimp only
          by_cases hc : st2.state ≠ StateStopped ∧ alive st2.pid = false
          · rw [if_pos hc]; exact List.mem_cons_of_mem _ hr
          · rw [if_neg hc]; exact hr
      · simp only [hs, if_false]; exact hr

/-- C2 (counterexample): two consumers keep a status file whose recorded
pid fails the liveness probe.  The process listing skips the liveness
probe entirely for a record in the `stopped` state and lists it instead of
deleting it; and the by-pid single-status view reads and prints a dead
pid's record without probing or deleting anything. -/
theorem status_consumers_keep_dead_pid_files :
    (listProcessesScan (fun _ => false)
        [("a-5.json", some ⟨"stopped", "a", 5, ⟨2024, 1, 1, 0, 0, 0⟩,
          ⟨2024, 1, 1, 0, 0, 0⟩, [], "", false, 0⟩)]).1 = []
    ∧ showStatusByPIDView (fun _ => false) 7
        [("b-7.json", some ⟨"running", "b", 7, ⟨2024, 1, 1, 0, 0, 0⟩,
          ⟨2024, 1, 1, 0, 0, 0⟩, [], "", false, 0⟩)]
      = (some ⟨"running", "b", 7, ⟨2024, 1, 1, 0, 0, 0⟩,
          ⟨2024, 1, 1, 0, 0, 0⟩, [], "", false, 0⟩, []) := by decide

/-- C2 (amended): lazy reclamation holds for the by-name single-status
scan, the daemon polling scan, and the startup cleanup sweep, and for the
process listing on records not in the `stopped` state: each deletes every
matching readable status file whose recorded pid fails the liveness probe.
It does not hold for the listing on `stopped` records (the probe is
skipped and the file kept) nor for the by-pid status view (which never
probes or deletes). -/
theorem status_store_lazy_reclamation (alive : Int → Bool) (name : String)
    (dir : List (String × Option Status)) (entries : List DirEntry) :
    (∀ fname st, (fname, some st) ∈ dir → matchesByName name fname = true →
        alive st.pid = false → fname ∈ (showSingleStatusScan alive name dir).2)
    ∧ (∀ fname st, (fname, some st) ∈ dir → daemonScanMatches name fname = true →
        alive st.pid = false → fname ∈ (runStatusDaemonScan alive name dir).2)
    ∧ (∀ e st, e ∈ entries → hasSuffixL ".json".data e.fname.data = true →
        e.raw = some (some st) → alive st.pid = false →
        e.fname ∈ cleanupStaleFiles alive entries)
    ∧ (∀ fname st, (fname, some st) ∈ dir → hasSuffixL ".json".data fname.data = true →
        st.state ≠ StateStopped → alive st.pid = false →
        fname ∈ (listProcessesScan alive dir).1) :=
  ⟨fun fname st => showSingleStatusScan_removes_dead alive name dir fname st,
   fun fname st => runStatusDaemonScan_removes_dead alive name dir fname st,
   fun e st => cleanupStaleFiles_removes_dead alive entries e st,
   fun fname st => listProcessesScan_removes_dead_nonstopped alive dir fname st⟩

/-- C2 (witness): the amended reclamation at a concrete one-file store:
the by-name scan for `kiro` deletes `kiro-5.json`, whose recorded pid 5 is
dead. -/
theorem status_store_lazy_reclamation_witness :
    "kiro-5.json" ∈ (showSingleStatusScan (fun _ => false) "kiro"
      [("kiro-5.json", some ⟨"running", "k", 5, ⟨2024, 1, 1, 0, 0, 0⟩,
        ⟨2024, 1, 1, 0, 0, 0⟩, [], "", false, 0⟩)]).2 :=
  (status_store_lazy_reclamation (fun _ => false) "kiro"
      [("kiro-5.json", some ⟨"running", "k", 5, ⟨2024, 1, 1, 0, 0, 0⟩,
        ⟨2024, 1, 1, 0, 0, 0⟩, [], "", false, 0⟩)] []).1
    "kiro-5.json"
    ⟨"running", "k", 5, ⟨2024, 1, 1, 0, 0, 0⟩, ⟨2024, 1, 1, 0, 0, 0⟩, [], "", false, 0⟩
    (List.mem_singleton.mpr rfl) (by decide) (by decide)

/-! ### Claim C3 -/

lemma natToCharsAux_digits :
    ∀ (fuel n : Nat) (acc : List Char), (∀ c ∈ acc, isDigitCh c = true) →
      ∀ c ∈ natToCharsAux fuel n acc, isDigitCh c = true := by
  intro fuel
  induction fuel with
  | zero => intro n acc hacc; exact hacc
  | succ m ih =>
    intro n acc hacc c hc
    rw [natToCharsAux] at hc
    by_cases hn : n < 10
    · rw [if_pos hn] at hc
      rcases List.mem_cons.mp hc with h | h
      · rw [h]
        have hn9 : n ≤ 9 := by omega
        interval_cases n <;> decide
      · exact hacc c h
    · rw [if_neg hn] at hc
      refine ih (n / 10) _ ?_ c hc
      intro e he
      rcases List.mem_cons.mp he with h | h
      · rw [h]
        have h10 : n % 10 ≤ 9 := by omega
        set r := n % 10 with hr
        interval_cases r <;> decide
      · exact hacc e h

lemma natToChars_digits (n : Nat) : ∀ c ∈ natToChars n, isDigitCh c = true :=
  natToCharsAux_digits (n + 1) n [] (by simp)

lemma prefix_hyphen_append (tail : List Char) (ht : '-' ∉ tail) :
    ∀ (a b : List Char), ((a ++ ['-']) <+: (b ++ '-' :: tail) ↔ a = b ∨ (a ++ ['-']) <+: b) := by
  intro a
  induction a with
  | nil =>
    intro b
    cases b with
    | nil => simp
    | cons x b' =>
      simp only [List.nil_append, List.cons_append, List.cons_prefix_cons]
      constructor
      · rintro ⟨h, -⟩
        right
        rw [← h]
        exact ⟨rfl, List.nil_prefix⟩
      · rintro (h | ⟨h, -⟩)
        · exact absurd h (by simp)
        · exact ⟨h, List.nil_prefix⟩
  | cons x a' ih =>
    intro b
    cases b with
    | nil =>
      simp only [List.cons_append, List.nil_append, List.cons_prefix_cons]
      constructor
      · rintro ⟨hx, hpre⟩
        exfalso
        exact ht (hpre.sublist.subset (by simp))
      · rintro (h | h)
        · exact absurd h (by simp)
        · exact absurd h (by simp)
    | cons y b' =>
      simp only [List.cons_append, List.cons_prefix_cons]
      rw [ih b']
      constructor
      · rintro ⟨hxy, h | h⟩
        · left; rw [hxy, h]
        · right; exact ⟨hxy, h⟩
      · rintro (h | ⟨hxy, h⟩)
        · have hx : x = y := by injection h
          have ha : a' = b' := by injection h
          exact ⟨hx, Or.inl ha⟩
        · exact ⟨hxy, Or.inr h⟩

lemma statusFile_data (n2 : String) (p : Nat) :
    (getStatusFileWithPID n2 p).data =
      n2.data ++ '-' :: ((natStr p).data ++ ".json".data) := by
  unfold getStatusFileWithPID
  rw [String.data_append, String.data_append, String.data_append]
  have hd : ("-" : String).data = ['-'] := rfl
  rw [hd]
  simp [List.append_assoc]

lemma statusFile_data_assoc (n2 : String) (p : Nat) :
    (getStatusFileWithPID n2 p).data =
      (n2.data ++ '-' :: (natStr p).data) ++ ".json".data := by
  rw [statusFile_data]; simp

lemma hyphen_not_in_tail (p : Nat) : '-' ∉ (natStr p).data ++ ".json".data := by
  intro h
  rcases List.mem_append.mp h with h | h
  · have := natToChars_digits p '-' h
    exact absurd this (by decide)
  · exact absurd h (by decide)

/-- C3 (counterexample): lookups check only the prefix `name + "-"` and
the suffix `.json`, with no numeric-pid validation, so a lookup for `foo`
does match the status file of the different name `foo-bar` — the claim's
universally quantified non-confusion property fails for names that
themselves continue with a hyphen. -/
theorem name_lookup_matches_hyphenated_sibling :
    ("foo" : String) ≠ "foo-bar"
    ∧ matchesByName "foo" (getStatusFileWithPID "foo-bar" 222) = true := by decide

/-- C3 (amended): a by-name lookup matches the file `n2-pid.json` exactly
when the looked-up name equals `n2` or `n2` itself begins with the
looked-up name followed by a hyphen (the daemon scan additionally accepts
the exact file `name.json`, hence also a looked-up name of the form
`n2-pid`); consequently the spec's concrete example does hold — `foo`
matches `foo-111.json` and never `foobar-222.json` — but there is no
numeric-suffix check, and a hyphen-continuing sibling name is confused. -/
theorem name_lookup_prefix_characterization (n1 n2 : String) (p : Nat) :
    (matchesByName n1 (getStatusFileWithPID n2 p) = true ↔
      n1 = n2 ∨ (n1.data ++ ['-']) <+: n2.data)
    ∧ (daemonScanMatches n1 (getStatusFileWithPID n2 p) = true ↔
      n1 = n2 ++ "-" ++ natStr p ∨ n1 = n2 ∨ (n1.data ++ ['-']) <+: n2.data)
    ∧ matchesByName "foo" (getStatusFileWithPID "foo" 111) = true
    ∧ matchesByName "foo" (getStatusFileWithPID "foobar" 222) = false := by
  refine ⟨?_, ?_, by decide, by decide⟩
  · unfold matchesByName hasPrefixL hasSuffixL
    rw [Bool.and_eq_true]
    rw [List.isPrefixOf_iff_prefix, List.isSuffixOf_iff_suffix]
    rw [statusFile_data]
    constructor
    · rintro ⟨hpre, -⟩
      rw [String.data_append] at hpre
      have hch := (prefix_hyphen_append _ (hyphen_not_in_tail p) n1.data n2.data).mp
        (by simpa using hpre)
      rcases hch with h | h
      · left; exact String.ext h
      · right; simpa using h
    · intro h
      refine ⟨?_, ?_⟩
      · rw [String.data_append]
        apply (prefix_hyphen_append _ (hyphen_not_in_tail p) n1.data n2.data).mpr
        rcases h with h | h
        · left; rw [h]
        · right; simpa using h
      · have hre : n2.data ++ '-' :: ((natStr p).data ++ ".json".data) =
            (n2.data ++ '-' :: (natStr p).data) ++ ".json".data := by simp
        rw [hre]
        exact List.suffix_append _ _
  · unfold daemonScanMatches hasPrefixL hasSuffixL
    rw [Bool.and_eq_true, Bool.or_eq_true]
    rw [List.isPrefixOf_iff_prefix, List.isSuffixOf_iff_suffix, beq_iff_eq]
    have hsuf : ".json".data <:+ (getStatusFileWithPID n2 p).data := by
      rw [statusFile_data_assoc]
      exact List.suffix_append _ _
    have hexact : getStatusFileWithPID n2 p = n1 ++ ".json" ↔ n1 = n2 ++ "-" ++ natStr p := by
      constructor
      · intro h
        have hd := congrArg String.data h
        rw [statusFile_data_assoc, String.data_append] at hd
        have hcanc := List.append_cancel_right hd
        apply String.ext
        rw [String.data_append, String.data_append]
        have hdm : ("-" : String).data = ['-'] := rfl
        rw [hdm, ← hcanc]
        simp
      · intro h
        apply String.ext
        rw [statusFile_data_assoc, String.data_append, h]
        rw [String.data_append, String.data_append]
        have hdm : ("-" : String).data = ['-'] := rfl
        rw [hdm]
        simp
    have hpref : (n1 ++ "-").data <+: (getStatusFileWithPID n2 p).data ↔
        n1 = n2 ∨ (n1.data ++ ['-']) <+: n2.data := by
      rw [statusFile_data, String.data_append]
      have hdm : ("-" : String).data = ['-'] := rfl
      rw [hdm]
      rw [prefix_hyphen_append _ (hyphen_not_in_tail p) n1.data n2.data]
      constructor
      · rintro (h | h)
        · left; exact String.ext h
        · right; exact h
      · rintro (h | h)
        · left; rw [h]
        · right; exact h
    constructor
    · rintro ⟨-, he | hp⟩
      · left; exact hexact.mp he
      · right; exact hpref.mp hp
    · rintro (h | h)
      · exact ⟨hsuf, Or.inl (hexact.mpr h)⟩
      · exact ⟨hsuf, Or.inr (hpref.mpr h)⟩

/-! ### Claim C10: the output-history buffer invariant (wrapper.go) -/

def MaxLines : Nat := 100

/-- `addLine` (wrapper.go): strip the line, discard it if it became empty,
append, and keep only the most recent `MaxLines` entries. -/
def addLine (buffer : List String) (line : String) : List String :=
  let stripped := stripAnsi line
  if stripped = "" then buffer
  else
    let b := buffer ++ [stripped]
    if MaxLines < b.length then b.drop (b.length - MaxLines) else b

/-- The `last_lines` trimming of `updateStatus` (wrapper.go): the
persisted record keeps only the most recent 20 buffered lines. -/
def statusLastLines (buffer : List String) : List String :=
  if 20 < buffer.length then buffer.drop (buffer.length - 20) else buffer

/-- A line as the buffer stores it: non-empty, printable ASCII only, and
not beginning or ending in whitespace. -/
def cleanLine (s : String) : Prop :=
  s ≠ "" ∧ (∀ c ∈ s.data, isPrintable c = true)
    ∧ (∀ c, s.data.head? = some c → isGoSpace c = false)
    ∧ (∀ c, s.data.getLast? = some c → isGoSpace c = false)

lemma stripAnsi_cleanLine (l : String) (hne : stripAnsi l ≠ "") :
    cleanLine (stripAnsi l) := by
  refine ⟨hne, ?_, ?_, ?_⟩
  · intro c hc
    exact mem_stripAnsiL_printable l.data c hc
  · intro c hc
    exact trimSpace_head_not_space _ c hc
  · intro c hc
    exact trimSpace_getLast_not_space _ c hc

lemma addLine_preserves_clean (buffer : List String) (line : String)
    (h : ∀ s ∈ buffer, cleanLine s) : ∀ s ∈ addLine buffer line, cleanLine s := by
  intro s hs
  unfold addLine at hs
  by_cases he : stripAnsi line = ""
  · rw [if_pos he] at hs
    exact h s hs
  · rw [if_neg he] at hs
    have hmem : s ∈ buffer ++ [stripAnsi line] := by
      by_cases hl : MaxLines < (buffer ++ [stripAnsi line]).length
      · rw [if_pos hl] at hs
        exact List.mem_of_mem_drop hs
      · rw [if_neg hl] at hs
        exact hs
    rcases List.mem_append.mp hmem with hm | hm
    · exact h s hm
    · rw [List.mem_singleton.mp hm]
      exact stripAnsi_cleanLine line he

lemma foldl_addLine_clean :
    ∀ (inputs : List String) (buffer : List String), (∀ s ∈ buffer, cleanLine s) →
      ∀ s ∈ List.foldl addLine buffer inputs, cleanLine s := by
  intro inputs
  induction inputs with
  | nil => intro buffer h; exact h
  | cons l rest ih =>
    intro buffer h
    exact ih (addLine buffer l) (addLine_preserves_clean buffer l h)

/-- C10: after any sequence of `addLine` calls starting from the empty
buffer, every line of the screen buffer — and hence every element of the
`last_lines` slice that `updateStatus` persists — is a non-empty string of
printable ASCII (32–126) with no leading or trailing whitespace, because
lines are stripped before insertion and lines that strip to empty are
discarded. -/
theorem screen_buffer_lines_clean (inputs : List String) :
    ∀ s ∈ statusLastLines (List.foldl addLine [] inputs),
      s ≠ "" ∧ (∀ c ∈ s.data, isPrintable c = true)
        ∧ (∀ c, s.data.head? = some c → isGoSpace c = false)
        ∧ (∀ c, s.data.getLast? = some c → isGoSpace c = false) := by
  intro s hs
  have hbuf : s ∈ List.foldl addLine [] inputs := by
    unfold statusLastLines at hs
    by_cases hl : 20 < (List.foldl addLine [] inputs).length
    · rw [if_pos hl] at hs
      exact List.mem_of_mem_drop hs
    · rw [if_neg hl] at hs
      exact hs
  exact foldl_addLine_clean inputs [] (by simp) s hbuf

/-- C10 (witness): feeding the buffer a padded line and a pure escape
sequence leaves one stored line, `"hi"`, which satisfies the invariant. -/
theorem screen_buffer_lines_clean_witness :
    ("hi" : String) ≠ "" ∧ (∀ c ∈ "hi".data, isPrintable c = true)
      ∧ (∀ c, "hi".data.head? = some c → isGoSpace c = false)
      ∧ (∀ c, "hi".data.getLast? = some c → isGoSpace c = false) :=
  screen_buffer_lines_clean ["  hi  ", "\x1b[0m"] "hi" (by decide)

/-! ## Status Store round trip (claim C5)

The write path is `updateStatus`/`atomicWriteFile` (wrapper.go, notify.go):
`json.MarshalIndent(status, "", "  ")`, temp file in the target directory,
write, sync, chmod, atomic rename.  The read path is `readStatusWithLock`
(notify.go): open, shared `flock`, read all, `json.Unmarshal`.  The JSON
codec is the Go standard library; it is embedded as a concrete
encoder mirroring `MarshalIndent`'s exact output for this struct
(HTML-escaping string encoder included) and a general JSON parser
modelling `Unmarshal` (structural, fuel only bounds nesting/iteration).
Integral JSON numbers suffice for the modelled record (`pid` is an `int`;
`idle_seconds`, a `float64` in Go, is modelled as whole seconds — Go
renders whole floats without a decimal point, so the rendering agrees).
`time.Time` is encoded per RFC3339 at second precision; surrogate-pair
`\uXXXX` decoding and absent-field defaulting of `Unmarshal` are not
exercised by any encoder output and are left out of the model. -/

def jsonLBrace : Char := Char.ofNat 123

def jsonRBrace : Char := Char.ofNat 125

def hexDigitCh (n : Nat) : Char := if n < 10 then digitChar n else Char.ofNat (87 + n)

def isHexDigit (c : Char) : Bool := isDigitCh c || (97 ≤ c.toNat && c.toNat ≤ 102)

def hexVal (c : Char) : Nat := if isDigitCh c then c.toNat - 48 else c.toNat - 87

/-- Go `encoding/json` string escaping (with the default HTML escaping):
quote and backslash, the three short control escapes, `\u00XX` for the
remaining control characters, `<`/`>`/`&` for `<`/`>`/`&`,
and ` `/` ` for the line/paragraph separators. -/
def escapeChar (c : Char) : List Char :=
  if c = '"' then ['\\', '"']
  else if c = '\\' then ['\\', '\\']
  else if c = '\n' then ['\\', 'n']
  else if c = '\r' then ['\\', 'r']
  else if c = '\t' then ['\\', 't']
  else if c.toNat < 32 then ['\\', 'u', '0', '0', hexDigitCh (c.toNat / 16), hexDigitCh (c.toNat % 16)]
  else if c = '<' then ['\\', 'u', '0', '0', '3', 'c']
  else if c = '>' then ['\\', 'u', '0', '0', '3', 'e']
  else if c = '&' then ['\\', 'u', '0', '0', '2', '6']
  else if c.toNat = 8232 then ['\\', 'u', '2', '0', '2', '8']
  else if c.toNat = 8233 then ['\\', 'u', '2', '0', '2', '9']
  else [c]

def escapeList : List Char → List Char
  | [] => []
  | c :: rest => escapeChar c ++ escapeList rest

def encodeString (s : List Char) : List Char := '"' :: escapeList s ++ ['"']

def unescapeChar (e : Char) : Option Char :=
  if e = '"' then some '"'
  else if e = '\\' then some '\\'
  else if e = '/' then some '/'
  else if e = 'b' then some (Char.ofNat 8)
  else if e = 'f' then some (Char.ofNat 12)
  else if e = 'n' then some '\n'
  else if e = 'r' then some '\r'
  else if e = 't' then some '\t'
  else none

/-- The string-body production of the JSON parser (after the opening
quote): literal runes (raw control characters are rejected, as
`json.Unmarshal` rejects them), short escapes, and `\uXXXX`. -/
def parseStringBody : List Char → Option (List Char × List Char)
  | [] => none
  | c :: rest =>
    if c = '"' then some ([], rest)
    else if c = '\\' then
      match rest with
      | [] => none
      | e :: rest2 =>
        if e = 'u' then
          match rest2 with
          | h1 :: h2 :: h3 :: h4 :: rest3 =>
            if isHexDigit h1 && isHexDigit h2 && isHexDigit h3 && isHexDigit h4 then
              (fun pr => (Char.ofNat (hexVal h1 * 4096 + hexVal h2 * 256 + hexVal h3 * 16 + hexVal h4) :: pr.1, pr.2)) <$>
                parseStringBody rest3
            else none
          | _ => none
        else
          match unescapeChar e with
          | some u => (fun pr => (u :: pr.1, pr.2)) <$> parseStringBody rest2
          | none => none
    else if c.toNat < 32 then none
    else (fun pr => (c :: pr.1, pr.2)) <$> parseStringBody rest

lemma hexVal_hexDigitCh (n : Nat) (h : n < 16) : hexVal (hexDigitCh n) = n := by
  interval_cases n <;> decide

lemma isHexDigit_hexDigitCh (n : Nat) (h : n < 16) : isHexDigit (hexDigitCh n) = true := by
  interval_cases n <;> decide

lemma parseStringBody_escape : ∀ (s rest : List Char),
    parseStringBody (escapeList s ++ '"' :: rest) = some (s, rest) := by
  intro s
  induction s with
  | nil =>
    intro rest
    show parseStringBody ('"' :: rest) = some ([], rest)
    rw [parseStringBody.eq_def]
    simp
  | cons c s' ih =>
    intro rest
    show parseStringBody ((escapeChar c ++ escapeList s') ++ '"' :: rest) = some (c :: s', rest)
    rw [List.append_assoc]
    by_cases h1 : c = '"'
    · subst h1
      simp only [escapeChar, if_pos rfl, List.cons_append, List.nil_append]
      rw [parseStringBody.eq_def]
      simp +decide [unescapeChar, ih]
    · by_cases h2 : c = '\\'
      · subst h2
        simp only [escapeChar, if_neg h1, if_pos rfl, List.cons_append, List.nil_append]
        rw [parseStringBody.eq_def]
        simp +decide [unescapeChar, ih]
      · by_cases h3 : c = '\n'
        · subst h3
          simp only [escapeChar, if_neg h1, if_neg h2, if_pos rfl, List.cons_append,
            List.nil_append]
          rw [parseStringBody.eq_def]
          simp +decide [unescapeChar, ih]
        · by_cases h4 : c = '\r'
          · subst h4
            simp only [escapeChar, if_neg h1, if_neg h2, if_neg h3, if_pos rfl,
              List.cons_append, List.nil_append]
            rw [parseStringBody.eq_def]
            simp +decide [unescapeChar, ih]
          · by_cases h5 : c = '\t'
            · subst h5
              simp only [escapeChar, if_neg h1, if_neg h2, if_neg h3, if_neg h4, if_pos rfl,
                List.cons_append, List.nil_append]
              rw [parseStringBody.eq_def]
              simp +decide [unescapeChar, ih]
            · by_cases h6 : c.toNat < 32
              · have hdiv : c.toNat / 16 < 16 := by omega
                have hmod : c.toNat % 16 < 16 := by omega
                simp only [escapeChar, if_neg h1, if_neg h2, if_neg h3, if_neg h4, if_neg h5,
                  if_pos h6, List.cons_append, List.nil_append]
                rw [parseStringBody.eq_def]
                simp +decide [isHexDigit_hexDigitCh _ hdiv, isHexDigit_hexDigitCh _ hmod,
                  hexVal_hexDigitCh _ hdiv, hexVal_hexDigitCh _ hmod, ih]
                have h0 : hexVal '0' = 0 := by decide
                rw [h0]
                have hsum : 0 * 4096 + 0 * 256 + c.toNat / 16 * 16 + c.toNat % 16 = c.toNat := by
                  omega
                rw [hsum, Char.ofNat_toNat]
              · by_cases h7 : c = '<'
                · subst h7
                  simp only [escapeChar, if_neg h1, if_neg h2, if_neg h3, if_neg h4, if_neg h5,
                    if_neg h6, if_pos rfl, List.cons_append, List.nil_append]
                  rw [parseStringBody.eq_def]
                  simp +decide [ih]
                · by_cases h8 : c = '>'
                  · subst h8
                    simp only [escapeChar, if_neg h1, if_neg h2, if_neg h3, if_neg h4,
                      if_neg h5, if_neg h6, if_neg h7, if_pos rfl, List.cons_append,
                      List.nil_append]
                    rw [parseStringBody.eq_def]
                    simp +decide [ih]
                  · by_cases h9 : c = '&'
                    · subst h9
                      simp only [escapeChar, if_neg h1, if_neg h2, if_neg h3, if_neg h4,
                        if_neg h5, if_neg h6, if_neg h7, if_neg h8, if_pos rfl,
                        List.cons_append, List.nil_append]
                      rw [parseStringBody.eq_def]
                      simp +decide [ih]
                    · by_cases h10 : c.toNat = 8232
                      · simp only [escapeChar, if_neg h1, if_neg h2, if_neg h3, if_neg h4,
                          if_neg h5, if_neg h6, if_neg h7, if_neg h8, if_neg h9, if_pos h10,
                          List.cons_append, List.nil_append]
                        rw [parseStringBody.eq_def]
                        simp +decide [ih]
                        have hv : hexVal '2' * 4096 + hexVal '0' * 256 + hexVal '2' * 16 + hexVal '8' = 8232 := by decide
                        rw [hv, ← h10, Char.ofNat_toNat]
                      · by_cases h11 : c.toNat = 8233
                        · simp only [escapeChar, if_neg h1, if_neg h2, if_neg h3, if_neg h4,
                            if_neg h5, if_neg h6, if_neg h7, if_neg h8, if_neg h9, if_neg h10,
                            if_pos h11, List.cons_append, List.nil_append]
                          rw [parseStringBody.eq_def]
                          simp +decide [ih]
                          have hv : hexVal '2' * 4096 + hexVal '0' * 256 + hexVal '2' * 16 + hexVal '9' = 8233 := by decide
                          rw [hv, ← h11, Char.ofNat_toNat]
                        · simp only [escapeChar, if_neg h1, if_neg h2, if_neg h3, if_neg h4,
                            if_neg h5, if_neg h6, if_neg h7, if_neg h8, if_neg h9, if_neg h10,
                            if_neg h11, List.cons_append, List.nil_append]
                          rw [parseStringBody.eq_def]
                          simp [h1, h2, h6, ih]

/-! ### JSON numbers: decimal render and parse -/

def parseNatAux (acc : Nat) : List Char → Nat × List Char
  | [] => (acc, [])
  | c :: rest =>
    if isDigitCh c then parseNatAux (acc * 10 + (c.toNat - 48)) rest else (acc, c :: rest)

def parseNat : List Char → Option (Nat × List Char)
  | [] => none
  | c :: rest => if isDigitCh c then some (parseNatAux 0 (c :: rest)) else none

def intToChars (n : Int) : List Char :=
  if n < 0 then '-' :: natToChars n.natAbs else natToChars n.toNat

def parseIntChars : List Char → Option (Int × List Char)
  | [] => none
  | c :: rest =>
    if c = '-' then (fun pr => (-(pr.1 : Int), pr.2)) <$> parseNat rest
    else (fun pr => ((pr.1 : Int), pr.2)) <$> parseNat (c :: rest)

def digitsValAcc (acc : Nat) : List Char → Nat
  | [] => acc
  | c :: rest => digitsValAcc (acc * 10 + (c.toNat - 48)) rest

lemma digitsValAcc_append : ∀ (xs ys : List Char) (acc : Nat),
    digitsValAcc acc (xs ++ ys) = digitsValAcc (digitsValAcc acc xs) ys := by
  intro xs
  induction xs with
  | nil => intro ys acc; rfl
  | cons c rest ih =>
    intro ys acc
    show digitsValAcc (acc * 10 + (c.toNat - 48)) (rest ++ ys) =
      digitsValAcc (digitsValAcc (acc * 10 + (c.toNat - 48)) rest) ys
    exact ih ys _

lemma parseNatAux_digits_append : ∀ (ds : List Char) (acc : Nat) (rest : List Char),
    (∀ c ∈ ds, isDigitCh c = true) →
    (∀ c, rest.head? = some c → isDigitCh c = false) →
    parseNatAux acc (ds ++ rest) = (digitsValAcc acc ds, rest) := by
  intro ds
  induction ds with
  | nil =>
    intro acc rest _ hrest
    cases rest with
    | nil => rfl
    | cons c t =>
      have hc := hrest c rfl
      show (if isDigitCh c then parseNatAux (acc * 10 + (c.toNat - 48)) t
            else (acc, c :: t)) = (acc, c :: t)
      rw [hc]
      simp
  | cons d ds' ih =>
    intro acc rest hds hrest
    have hd := hds d (by simp)
    show (if isDigitCh d then parseNatAux (acc * 10 + (d.toNat - 48)) (ds' ++ rest)
          else (acc, d :: (ds' ++ rest))) = (digitsValAcc (acc * 10 + (d.toNat - 48)) ds', rest)
    rw [hd]
    simp only [if_true]
    exact ih _ rest (fun c hc => hds c (List.mem_cons_of_mem d hc)) hrest

lemma natToCharsAux_append : ∀ (fuel n : Nat) (acc : List Char),
    natToCharsAux fuel n acc = natToCharsAux fuel n [] ++ acc := by
  intro fuel
  induction fuel with
  | zero => intro n acc; rfl
  | succ f ih =>
    intro n acc
    by_cases hn : n < 10
    · simp only [natToCharsAux, hn, if_true]; rfl
    · simp only [natToCharsAux, hn, if_false]
      rw [ih (n / 10) (digitChar (n % 10) :: acc), ih (n / 10) [digitChar (n % 10)]]
      simp

lemma digitChar_toNat (d : Nat) (h : d < 10) : (digitChar d).toNat = 48 + d := by
  interval_cases d <;> decide

lemma digitsValAcc_natToCharsAux : ∀ (fuel n acc : Nat), n < 10 ^ fuel →
    digitsValAcc acc (natToCharsAux fuel n []) =
      acc * 10 ^ (natToCharsAux fuel n []).length + n := by
  intro fuel
  induction fuel with
  | zero =>
    intro n acc h
    have hn0 : n = 0 := by simpa using h
    subst hn0
    show acc = acc * 10 ^ (List.length ([] : List Char)) + 0
    simp
  | succ f ih =>
    intro n acc h
    by_cases hn : n < 10
    · simp only [natToCharsAux, hn, if_true]
      have hstep : digitsValAcc acc [digitChar n] = acc * 10 + n := by
        show digitsValAcc (acc * 10 + ((digitChar n).toNat - 48)) [] = acc * 10 + n
        rw [digitChar_toNat n hn]
        show acc * 10 + (48 + n - 48) = acc * 10 + n
        omega
      rw [hstep]
      show acc * 10 + n = acc * 10 ^ (1 : Nat) + n
      rw [pow_one]
    · simp only [natToCharsAux, hn, if_false]
      rw [natToCharsAux_append f (n / 10) [digitChar (n % 10)]]
      rw [digitsValAcc_append]
      have hlt : n / 10 < 10 ^ f := by
        rw [pow_succ] at h
        omega
      rw [ih (n / 10) acc hlt]
      have hstep : digitsValAcc (acc * 10 ^ (natToCharsAux f (n / 10) []).length + n / 10)
          [digitChar (n % 10)] =
          (acc * 10 ^ (natToCharsAux f (n / 10) []).length + n / 10) * 10 + (48 + n % 10 - 48) := by
        show digitsValAcc ((acc * 10 ^ (natToCharsAux f (n / 10) []).length + n / 10) * 10 +
          ((digitChar (n % 10)).toNat - 48)) [] = _
        rw [digitChar_toNat (n % 10) (by omega)]
        rfl
      rw [hstep]
      simp only [List.length_append, List.length_cons, List.length_nil]
      rw [pow_succ]
      set q := acc * 10 ^ (natToCharsAux f (n / 10) []).length with hq
      have hq10 : acc * (10 ^ (natToCharsAux f (n / 10) []).length * 10) = q * 10 := by
        rw [hq]; ring
      rw [hq10]
      omega

lemma natToChars_ne_nil (n : Nat) : natToChars n ≠ [] := by
  unfold natToChars
  by_cases hn : n < 10
  · simp [natToCharsAux, hn]
  · simp only [natToCharsAux, hn, if_false]
    rw [natToCharsAux_append]
    simp

lemma parseNat_natToChars (n : Nat) (rest : List Char)
    (hrest : ∀ c, rest.head? = some c → isDigitCh c = false) :
    parseNat (natToChars n ++ rest) = some (n, rest) := by
  have hdig : ∀ c ∈ natToChars n, isDigitCh c = true := natToChars_digits n
  obtain ⟨c, t, hct⟩ := List.exists_cons_of_ne_nil (natToChars_ne_nil n)
  have hc : isDigitCh c = true := hdig c (by rw [hct]; simp)
  have hbound : n < 10 ^ (n + 1) :=
    calc n < 10 ^ n := Nat.lt_pow_self (by norm_num) n
    _ ≤ 10 ^ (n + 1) := Nat.pow_le_pow_right (by norm_num) (by omega)
  have hval := digitsValAcc_natToCharsAux (n + 1) n 0 hbound
  rw [hct]
  show (if isDigitCh c then some (parseNatAux 0 (c :: (t ++ rest))) else none) = some (n, rest)
  rw [hc]
  simp only [if_true]
  rw [show c :: (t ++ rest) = (c :: t) ++ rest from rfl, ← hct]
  rw [parseNatAux_digits_append (natToChars n) 0 rest hdig hrest]
  rw [show natToCharsAux (n + 1) n [] = natToChars n from rfl] at hval
  rw [hval]
  simp

lemma parseIntChars_neg (tail : List Char) :
    parseIntChars ('-' :: tail) = (fun pr => (-(pr.1 : Int), pr.2)) <$> parseNat tail := by
  show (if '-' = '-' then (fun pr => (-(pr.1 : Int), pr.2)) <$> parseNat tail
        else (fun pr => ((pr.1 : Int), pr.2)) <$> parseNat ('-' :: tail)) =
    (fun pr => (-(pr.1 : Int), pr.2)) <$> parseNat tail
  rw [if_pos rfl]

lemma parseIntChars_nonneg (c : Char) (tail : List Char) (h : c ≠ '-') :
    parseIntChars (c :: tail) = (fun pr => ((pr.1 : Int), pr.2)) <$> parseNat (c :: tail) := by
  show (if c = '-' then (fun pr => (-(pr.1 : Int), pr.2)) <$> parseNat tail
        else (fun pr => ((pr.1 : Int), pr.2)) <$> parseNat (c :: tail)) =
    (fun pr => ((pr.1 : Int), pr.2)) <$> parseNat (c :: tail)
  rw [if_neg h]

lemma parseIntChars_intToChars (n : Int) (rest : List Char)
    (hrest : ∀ c, rest.head? = some c → isDigitCh c = false) :
    parseIntChars (intToChars n ++ rest) = some (n, rest) := by
  unfold intToChars
  by_cases hn : n < 0
  · simp only [hn, if_true, List.cons_append]
    rw [parseIntChars_neg]
    rw [parseNat_natToChars n.natAbs rest hrest]
    simp only [Option.map_some]
    have hna : -((n.natAbs : Nat) : Int) = n := by omega
    rw [hna]
  · simp only [hn, if_false]
    obtain ⟨c, t, hct⟩ := List.exists_cons_of_ne_nil (natToChars_ne_nil n.toNat)
    have hc : isDigitCh c = true := natToChars_digits n.toNat c (by rw [hct]; simp)
    have hcm : c ≠ '-' := by
      intro he; rw [he] at hc; exact absurd hc (by decide)
    rw [hct]
    simp only [List.cons_append]
    rw [parseIntChars_nonneg c (t ++ rest) hcm]
    rw [show c :: (t ++ rest) = (c :: t) ++ rest from rfl, ← hct]
    rw [parseNat_natToChars n.toNat rest hrest]
    simp only [Option.map_some]
    rw [Int.toNat_of_nonneg (by omega)]

/-! ### RFC3339 rendering and parsing of `time.Time` at second precision -/

def pad2 (n : Nat) : List Char := [digitChar (n / 10 % 10), digitChar (n % 10)]

def pad4 (n : Nat) : List Char :=
  [digitChar (n / 1000 % 10), digitChar (n / 100 % 10), digitChar (n / 10 % 10), digitChar (n % 10)]

/-- `time.Time.MarshalJSON` content (RFC3339, UTC, zero nanoseconds);
written right-nested so each component heads its own suffix. -/
def renderDateTime (dt : DateTime) : List Char :=
  pad4 dt.year ++ ('-' :: (pad2 dt.month ++ ('-' :: (pad2 dt.day ++ ('T' :: (pad2 dt.hour
    ++ (':' :: (pad2 dt.minute ++ (':' :: (pad2 dt.second ++ ['Z']))))))))))

def parse2 : List Char → Option (Nat × List Char)
  | c1 :: c2 :: rest =>
    if isDigitCh c1 && isDigitCh c2 then
      some ((c1.toNat - 48) * 10 + (c2.toNat - 48), rest)
    else none
  | _ => none

def parse4 : List Char → Option (Nat × List Char)
  | c1 :: c2 :: c3 :: c4 :: rest =>
    if isDigitCh c1 && isDigitCh c2 && isDigitCh c3 && isDigitCh c4 then
      some (((c1.toNat - 48) * 10 + (c2.toNat - 48)) * 100 +
        ((c3.toNat - 48) * 10 + (c4.toNat - 48)), rest)
    else none
  | _ => none

def expectChar (c : Char) : List Char → Option (List Char)
  | d :: rest => if d = c then some rest else none
  | [] => none

/-- The RFC3339 parse performed by `time.Time.UnmarshalJSON`, restricted
to the precision and zone the writer emits, with `time.Parse`'s component
range validation. -/
def parseDateTime (s : List Char) : Option DateTime :=
  match parse4 s with
  | none => none
  | some (y, s1) =>
    match expectChar '-' s1 with
    | none => none
    | some s2 =>
      match parse2 s2 with
      | none => none
      | some (mo, s3) =>
        match expectChar '-' s3 with
        | none => none
        | some s4 =>
          match parse2 s4 with
          | none => none
          | some (d, s5) =>
            match expectChar 'T' s5 with
            | none => none
            | some s6 =>
              match parse2 s6 with
              | none => none
              | some (h, s7) =>
                match expectChar ':' s7 with
                | none => none
                | some s8 =>
                  match parse2 s8 with
                  | none => none
                  | some (mi, s9) =>
                    match expectChar ':' s9 with
                    | none => none
                    | some s10 =>
                      match parse2 s10 with
                      | none => none
                      | some (sec, s11) =>
                        match expectChar 'Z' s11 with
                        | none => none
                        | some s12 =>
                          if s12 = [] ∧ 1 ≤ mo ∧ mo ≤ 12 ∧ 1 ≤ d ∧ d ≤ 31
                              ∧ h ≤ 23 ∧ mi ≤ 59 ∧ sec ≤ 59 then
                            some ⟨y, mo, d, h, mi, sec⟩
                          else none

/-- Validity ranges a live `time.Time` satisfies (and `time.Parse`
checks); the year bound is Go's RFC3339 marshalling bound. -/
def dtValid (dt : DateTime) : Prop :=
  dt.year ≤ 9999 ∧ 1 ≤ dt.month ∧ dt.month ≤ 12 ∧ 1 ≤ dt.day ∧ dt.day ≤ 31
    ∧ dt.hour ≤ 23 ∧ dt.minute ≤ 59 ∧ dt.second ≤ 59

instance (dt : DateTime) : Decidable (dtValid dt) := by
  unfold dtValid; infer_instance

lemma isDigitCh_digitChar (d : Nat) (h : d < 10) : isDigitCh (digitChar d) = true := by
  interval_cases d <;> decide

lemma parse2_pad2 (n : Nat) (h : n < 100) (rest : List Char) :
    parse2 (pad2 n ++ rest) = some (n, rest) := by
  have h1 : n / 10 % 10 < 10 := by omega
  have h2 : n % 10 < 10 := by omega
  show (if isDigitCh (digitChar (n / 10 % 10)) && isDigitCh (digitChar (n % 10)) then
      some (((digitChar (n / 10 % 10)).toNat - 48) * 10 + ((digitChar (n % 10)).toNat - 48), rest)
    else none) = some (n, rest)
  rw [isDigitCh_digitChar _ h1, isDigitCh_digitChar _ h2,
    digitChar_toNat _ h1, digitChar_toNat _ h2]
  simp only [Bool.and_self, if_true]
  congr 1
  congr 1
  omega

lemma parse4_pad4 (n : Nat) (h : n < 10000) (rest : List Char) :
    parse4 (pad4 n ++ rest) = some (n, rest) := by
  have h1 : n / 1000 % 10 < 10 := by omega
  have h2 : n / 100 % 10 < 10 := by omega
  have h3 : n / 10 % 10 < 10 := by omega
  have h4 : n % 10 < 10 := by omega
  show (if isDigitCh (digitChar (n / 1000 % 10)) && isDigitCh (digitChar (n / 100 % 10))
        && isDigitCh (digitChar (n / 10 % 10)) && isDigitCh (digitChar (n % 10)) then
      some ((((digitChar (n / 1000 % 10)).toNat - 48) * 10 + ((digitChar (n / 100 % 10)).toNat - 48)) * 100 +
        (((digitChar (n / 10 % 10)).toNat - 48) * 10 + ((digitChar (n % 10)).toNat - 48)), rest)
    else none) = some (n, rest)
  rw [isDigitCh_digitChar _ h1, isDigitCh_digitChar _ h2, isDigitCh_digitChar _ h3,
    isDigitCh_digitChar _ h4, digitChar_toNat _ h1, digitChar_toNat _ h2,
    digitChar_toNat _ h3, digitChar_toNat _ h4]
  simp only [Bool.and_self, if_true]
  congr 1
  congr 1
  omega

lemma expectChar_cons (c : Char) (rest : List Char) :
    expectChar c (c :: rest) = some rest := by
  show (if c = c then some rest else none) = some rest
  rw [if_pos rfl]

lemma parseDateTime_renderDateTime (dt : DateTime) (hv : dtValid dt) :
    parseDateTime (renderDateTime dt) = some dt := by
  obtain ⟨hy, hmo1, hmo2, hd1, hd2, hh, hmi, hs⟩ := hv
  unfold renderDateTime parseDateTime
  rw [parse4_pad4 dt.year (by omega)]
  dsimp only
  rw [expectChar_cons]
  dsimp only
  rw [parse2_pad2 dt.month (by omega)]
  dsimp only
  rw [expectChar_cons]
  dsimp only
  rw [parse2_pad2 dt.day (by omega)]
  dsimp only
  rw [expectChar_cons]
  dsimp only
  rw [parse2_pad2 dt.hour (by omega)]
  dsimp only
  rw [expectChar_cons]
  dsimp only
  rw [parse2_pad2 dt.minute (by omega)]
  dsimp only
  rw [expectChar_cons]
  dsimp only
  rw [parse2_pad2 dt.second (by omega)]
  dsimp only
  rw [expectChar_cons]
  dsimp only
  rw [if_pos (by exact ⟨rfl, hmo1, hmo2, hd1, hd2, hh, hmi, hs⟩)]

/-! ### A general JSON value parser, modelling `json.Unmarshal`'s syntax
(integral numbers; fuel only bounds the recursion and is initialised
generously by `unmarshalStatus`) -/

inductive Jval where
  | jnull : Jval
  | jbool : Bool → Jval
  | jnum : Int → Jval
  | jstr : List Char → Jval
  | jarr : List Jval → Jval
  | jobj : List (List Char × Jval) → Jval

def isJsonWs (c : Char) : Bool := c = ' ' || c = '\t' || c = '\n' || c = '\r'

def skipWs (s : List Char) : List Char := s.dropWhile isJsonWs

def parseLit (lit : List Char) (s : List Char) : Option (List Char) :=
  if lit.isPrefixOf s then some (s.drop lit.length) else none

mutual

def parseJ : Nat → List Char → Option (Jval × List Char)
  | 0, _ => none
  | fuel + 1, s =>
    match skipWs s with
    | [] => none
    | c :: rest =>
      if c = 'n' then
        match parseLit ['u', 'l', 'l'] rest with
        | some r => some (.jnull, r)
        | none => none
      else if c = 't' then
        match parseLit ['r', 'u', 'e'] rest with
        | some r => some (.jbool true, r)
        | none => none
      else if c = 'f' then
        match parseLit ['a', 'l', 's', 'e'] rest with
        | some r => some (.jbool false, r)
        | none => none
      else if c = '"' then
        match parseStringBody rest with
        | some (str, r) => some (.jstr str, r)
        | none => none
      else if c = '[' then
        match skipWs rest with
        | [] => none
        | d :: r2 =>
          if d = ']' then some (.jarr [], r2)
          else
            match parseJArrItems fuel (d :: r2) with
            | some (xs, r3) => some (.jarr xs, r3)
            | none => none
      else if c = jsonLBrace then
        match skipWs rest with
        | [] => none
        | d :: r2 =>
          if d = jsonRBrace then some (.jobj [], r2)
          else
            match parseJObjFields fuel (d :: r2) with
            | some (fs, r3) => some (.jobj fs, r3)
            | none => none
      else
        match parseIntChars (c :: rest) with
        | some (n, r) => some (.jnum n, r)
        | none => none

def parseJArrItems : Nat → List Char → Option (List Jval × List Char)
  | 0, _ => none
  | fuel + 1, s =>
    match parseJ fuel s with
    | none => none
    | some (v, r1) =>
      match skipWs r1 with
      | [] => none
      | d :: r2 =>
        if d = ',' then
          match parseJArrItems fuel r2 with
          | some (xs, r3) => some (v :: xs, r3)
          | none => none
        else if d = ']' then some ([v], r2)
        else none

def parseJObjFields : Nat → List Char → Option (List (List Char × Jval) × List Char)
  | 0, _ => none
  | fuel + 1, s =>
    match skipWs s with
    | [] => none
    | c :: r1 =>
      if c = '"' then
        match parseStringBody r1 with
        | none => none
        | some (k, r2) =>
          match skipWs r2 with
          | [] => none
          | e :: r3 =>
            if e = ':' then
              match parseJ fuel r3 with
              | none => none
              | some (v, r4) =>
                match skipWs r4 with
                | [] => none
                | d :: r5 =>
                  if d = ',' then
                    match parseJObjFields fuel r5 with
                    | some (fs, r6) => some ((k, v) :: fs, r6)
                    | none => none
                  else if d = jsonRBrace then some ([(k, v)], r5)
                  else none
            else none
      else none

end

/-! ### The encoder: `json.MarshalIndent(status, "", "  ")`, byte for byte
(written right-nested so that each construct heads its own suffix) -/

def nlIndent : List Char := ['\n', ' ', ' ']

def nlIndent2 : List Char := ['\n', ' ', ' ', ' ', ' ']

/-- One `"key": value` unit followed by `tail`; the keys of `Status` need
no escaping, so they are embedded literally. -/
def keyValue (k vtext tail : List Char) : List Char :=
  '"' :: (k ++ ('"' :: (':' :: (' ' :: (vtext ++ tail)))))

/-- The elements of a non-empty `last_lines` array, each on its own
double-indented line, comma separated. -/
def encodeLinesItems : List String → List Char
  | [] => []
  | [s] => nlIndent2 ++ encodeString s.data
  | s :: rest => nlIndent2 ++ (encodeString s.data ++ (',' :: encodeLinesItems rest))

/-- `last_lines` as `MarshalIndent` renders a `[]string` at depth one:
`[]` when empty, otherwise one element per line with the closing bracket
at field indentation. -/
def encodeLastLines (ls : List String) : List Char :=
  match ls with
  | [] => ['[', ']']
  | _ => '[' :: (encodeLinesItems ls ++ ('\n' :: (' ' :: (' ' :: [']']))))

def encodeBool (b : Bool) : List Char :=
  if b then ['t', 'r', 'u', 'e'] else ['f', 'a', 'l', 's', 'e']

/-- `json.MarshalIndent(status, "", "  ")`: the nine fields in struct
order, two-space indentation, `",\n  "` between fields, `"\n}"` at the
end. -/
def marshalStatus (st : Status) : List Char :=
  jsonLBrace :: (nlIndent ++
    keyValue "state".data (encodeString st.state.data) (',' :: (nlIndent ++
    keyValue "command".data (encodeString st.command.data) (',' :: (nlIndent ++
    keyValue "pid".data (intToChars st.pid) (',' :: (nlIndent ++
    keyValue "start_time".data (encodeString (renderDateTime st.startTime)) (',' :: (nlIndent ++
    keyValue "updated_at".data (encodeString (renderDateTime st.updatedAt)) (',' :: (nlIndent ++
    keyValue "last_lines".data (encodeLastLines st.lastLines) (',' :: (nlIndent ++
    keyValue "last_line".data (encodeString st.lastLine.data) (',' :: (nlIndent ++
    keyValue "prompt_matched".data (encodeBool st.promptMatched) (',' :: (nlIndent ++
    keyValue "idle_seconds".data (natToChars st.idleSeconds)
      ('\n' :: [jsonRBrace]))))))))))))))))))

/-! ### The decoder: field extraction of `json.Unmarshal` into `Status` -/

/-- Go keeps the last of duplicate keys. -/
def jlookupLast (fields : List (List Char × Jval)) (k : List Char) : Option Jval :=
  fields.foldl (fun acc f => if f.1 = k then some f.2 else acc) none

def asStr : Option Jval → Option (List Char)
  | some (.jstr s) => some s
  | _ => none

def asInt : Option Jval → Option Int
  | some (.jnum n) => some n
  | _ => none

def asBool : Option Jval → Option Bool
  | some (.jbool b) => some b
  | _ => none

def jstrListElem : Jval → Option String
  | .jstr s => some ⟨s⟩
  | _ => none

/-- A `[]string` field: `null` decodes to the nil slice. -/
def asStrList : Option Jval → Option (List String)
  | some (.jarr xs) => xs.mapM jstrListElem
  | some .jnull => some []
  | _ => none

def asTime (v : Option Jval) : Option DateTime :=
  match asStr v with
  | some s => parseDateTime s
  | none => none

/-- Build a `Status` from a parsed JSON object, mirroring `Unmarshal`'s
typed field extraction (`idle_seconds` must be a non-negative integral
number in this whole-seconds model). -/
def statusOfJval : Jval → Option Status
  | .jobj fields =>
    match asStr (jlookupLast fields "state".data) with
    | none => none
    | some state =>
      match asStr (jlookupLast fields "command".data) with
      | none => none
      | some command =>
        match asInt (jlookupLast fields "pid".data) with
        | none => none
        | some pid =>
          match asTime (jlookupLast fields "start_time".data) with
          | none => none
          | some startTime =>
            match asTime (jlookupLast fields "updated_at".data) with
            | none => none
            | some updatedAt =>
              match asStrList (jlookupLast fields "last_lines".data) with
              | none => none
              | some lastLines =>
                match asStr (jlookupLast fields "last_line".data) with
                | none => none
                | some lastLine =>
                  match asBool (jlookupLast fields "prompt_matched".data) with
                  | none => none
                  | some promptMatched =>
                    match asInt (jlookupLast fields "idle_seconds".data) with
                    | none => none
                    | some idle =>
                      if 0 ≤ idle then
                        some ⟨⟨state⟩, ⟨command⟩, pid, startTime, updatedAt,
                          lastLines, ⟨lastLine⟩, promptMatched, idle.toNat⟩
                      else none
  | _ => none

/-- `json.Unmarshal` of a `Status`: parse the document (the fuel bound is
ample: one unit per construct, and the text has at least one byte per
construct), require only trailing whitespace, extract the fields. -/
def unmarshalStatus (bytes : List Char) : Option Status :=
  match parseJ (bytes.length + 1) bytes with
  | some (v, rest) => if skipWs rest = [] then statusOfJval v else none
  | none => none

/-! ### Parse lemmas: the parser consumes exactly what the encoder emits -/

lemma dropWhile_append_all (p : Char → Bool) :
    ∀ (pre x : List Char), (∀ c ∈ pre, p c = true) →
      (pre ++ x).dropWhile p = x.dropWhile p := by
  intro pre
  induction pre with
  | nil => intro x _; rfl
  | cons c t ih =>
    intro x h
    have hc := h c (by simp)
    rw [List.cons_append, List.dropWhile_cons, if_pos hc]
    exact ih x fun d hd => h d (List.mem_cons_of_mem c hd)

lemma skipWs_cons_not (c : Char) (t : List Char) (h : isJsonWs c = false) :
    skipWs (c :: t) = c :: t := by
  unfold skipWs
  rw [List.dropWhile_cons, if_neg (by simp [h])]

lemma skipWs_ws_append (pre x : List Char) (h : ∀ c ∈ pre, isJsonWs c = true) :
    skipWs (pre ++ x) = skipWs x :=
  dropWhile_append_all isJsonWs pre x h

lemma parseJ_skipWs (fuel : Nat) (s : List Char) :
    parseJ (fuel + 1) s = parseJ (fuel + 1) (skipWs s) := by
  have hss : skipWs (skipWs s) = skipWs s := by
    unfold skipWs
    cases hdr : s.dropWhile isJsonWs with
    | nil => rfl
    | cons c t =>
      have hc : isJsonWs c = false := head?_dropWhile_not isJsonWs s c (by rw [hdr]; rfl)
      rw [List.dropWhile_cons, if_neg (by simp [hc])]
  rw [parseJ, parseJ, hss]

lemma parseJ_ws_prefix (fuel : Nat) (pre x : List Char)
    (h : ∀ c ∈ pre, isJsonWs c = true) :
    parseJ (fuel + 1) (pre ++ x) = parseJ (fuel + 1) x := by
  rw [parseJ_skipWs fuel (pre ++ x), skipWs_ws_append pre x h, ← parseJ_skipWs]

lemma parseLit_self (lit rest : List Char) : parseLit lit (lit ++ rest) = some rest := by
  unfold parseLit
  rw [if_pos (List.isPrefixOf_iff_prefix.mpr (List.prefix_append lit rest))]
  rw [List.drop_left]

lemma parseJ_encodeString (fuel : Nat) (s tail : List Char) :
    parseJ (fuel + 1) (encodeString s ++ tail) = some (.jstr s, tail) := by
  have hshape : encodeString s ++ tail = '"' :: (escapeList s ++ ('"' :: tail)) := by
    unfold encodeString
    simp
  rw [hshape, parseJ]
  rw [skipWs_cons_not '"' _ (by decide)]
  simp only []
  rw [if_neg (by decide), if_neg (by decide), if_neg (by decide), if_pos trivial]
  rw [parseStringBody_escape]

lemma parseJ_encodeBool (fuel : Nat) (b : Bool) (tail : List Char) :
    parseJ (fuel + 1) (encodeBool b ++ tail) = some (.jbool b, tail) := by
  cases b with
  | true =>
    show parseJ (fuel + 1) ('t' :: (['r', 'u', 'e'] ++ tail)) = some (.jbool true, tail)
    rw [parseJ]
    rw [skipWs_cons_not 't' _ (by decide)]
    simp only []
    rw [if_neg (by decide), if_pos trivial]
    rw [parseLit_self]
  | false =>
    show parseJ (fuel + 1) ('f' :: (['a', 'l', 's', 'e'] ++ tail)) = some (.jbool false, tail)
    rw [parseJ]
    rw [skipWs_cons_not 'f' _ (by decide)]
    simp only []
    rw [if_neg (by decide), if_neg (by decide), if_pos trivial]
    rw [parseLit_self]

lemma digit_not_special (c : Char) (h : isDigitCh c = true) :
    c ≠ 'n' ∧ c ≠ 't' ∧ c ≠ 'f' ∧ c ≠ '"' ∧ c ≠ '[' ∧ c ≠ jsonLBrace ∧ isJsonWs c = false := by
  refine ⟨?_, ?_, ?_, ?_, ?_, ?_, ?_⟩
  · intro he; rw [he] at h; exact absurd h (by decide)
  · intro he; rw [he] at h; exact absurd h (by decide)
  · intro he; rw [he] at h; exact absurd h (by decide)
  · intro he; rw [he] at h; exact absurd h (by decide)
  · intro he; rw [he] at h; exact absurd h (by decide)
  · intro he; rw [he] at h; exact absurd h (by decide)
  · by_contra hws
    rw [Bool.not_eq_false] at hws
    have hw : c = ' ' ∨ c = '\t' ∨ c = '\n' ∨ c = '\x0d' := by
      simpa [isJsonWs, or_assoc] using hws
    rcases hw with he | he | he | he <;> (rw [he] at h; exact absurd h (by decide))

lemma parseJ_intChars (fuel : Nat) (n : Int) (tail : List Char)
    (htail : ∀ c, tail.head? = some c → isDigitCh c = false) :
    parseJ (fuel + 1) (intToChars n ++ tail) = some (.jnum n, tail) := by
  obtain ⟨c, t, hct⟩ : ∃ c t, intToChars n = c :: t := by
    unfold intToChars
    by_cases hn : n < 0
    · rw [if_pos hn]; exact ⟨'-', _, rfl⟩
    · rw [if_neg hn]; exact List.exists_cons_of_ne_nil (natToChars_ne_nil n.toNat)
  have hc : c = '-' ∨ isDigitCh c = true := by
    unfold intToChars at hct
    by_cases hn : n < 0
    · rw [if_pos hn] at hct
      left
      exact (List.cons.injEq _ _ _ _ ▸ hct).1.symm
    · rw [if_neg hn] at hct
      right
      exact natToChars_digits n.toNat c (by rw [hct]; simp)
  have hne : c ≠ 'n' ∧ c ≠ 't' ∧ c ≠ 'f' ∧ c ≠ '"' ∧ c ≠ '[' ∧ c ≠ jsonLBrace
      ∧ isJsonWs c = false := by
    rcases hc with hc | hc
    · subst hc
      refine ⟨by decide, by decide, by decide, by decide, by decide, by decide, by decide⟩
    · exact digit_not_special c hc
  obtain ⟨hn1, hn2, hn3, hn4, hn5, hn6, hn7⟩ := hne
  rw [hct]
  show parseJ (fuel + 1) (c :: (t ++ tail)) = some (.jnum n, tail)
  rw [parseJ]
  rw [skipWs_cons_not c _ hn7]
  simp only []
  rw [if_neg hn1, if_neg hn2, if_neg hn3, if_neg hn4, if_neg hn5, if_neg hn6]
  rw [show c :: (t ++ tail) = (c :: t) ++ tail from rfl, ← hct]
  rw [parseIntChars_intToChars n tail htail]

lemma intToChars_ofNat (m : Nat) : intToChars (m : Int) = natToChars m := by
  unfold intToChars
  rw [if_neg (by omega)]
  have hm : ((m : Int)).toNat = m := by omega
  rw [hm]

lemma parseJ_natChars (fuel : Nat) (m : Nat) (tail : List Char)
    (htail : ∀ c, tail.head? = some c → isDigitCh c = false) :
    parseJ (fuel + 1) (natToChars m ++ tail) = some (.jnum (m : Int), tail) := by
  rw [← intToChars_ofNat m]
  exact parseJ_intChars fuel (m : Int) tail htail

def stringsJval (ls : List String) : List Jval := ls.map (fun s => .jstr s.data)

/-- The text following the current array element: either the array close
or a comma and the remaining elements. -/
def itemsSep (ls : List String) (tail : List Char) : List Char :=
  match ls with
  | [] => '\n' :: (' ' :: (' ' :: (']' :: tail)))
  | _ => ',' :: (encodeLinesItems ls ++ ('\n' :: (' ' :: (' ' :: (']' :: tail)))))

lemma encodeLinesItems_shift (ls : List String) (s1 : String) (tail : List Char) :
    encodeLinesItems (s1 :: ls) ++ ('\n' :: (' ' :: (' ' :: (']' :: tail)))) =
      nlIndent2 ++ (encodeString s1.data ++ itemsSep ls tail) := by
  cases ls with
  | nil =>
    show (nlIndent2 ++ encodeString s1.data) ++ ('\n' :: (' ' :: (' ' :: (']' :: tail)))) = _
    rw [List.append_assoc]
    rfl
  | cons s2 rest =>
    show (nlIndent2 ++ (encodeString s1.data ++ (',' :: encodeLinesItems (s2 :: rest))))
        ++ ('\n' :: (' ' :: (' ' :: (']' :: tail)))) = _
    rw [List.append_assoc, List.append_assoc]
    rfl

lemma parseJArrItems_skipWs (f : Nat) (x : List Char) :
    parseJArrItems (f + 1 + 1) x = parseJArrItems (f + 1 + 1) (skipWs x) := by
  rw [parseJArrItems, parseJArrItems, parseJ_skipWs]

lemma encodeString_cons (s : List Char) :
    encodeString s = '"' :: (escapeList s ++ ['"']) := rfl

lemma parseJArrItems_strings :
    ∀ (ls : List String) (s0 : String) (fuel : Nat) (tail : List Char),
      parseJArrItems (fuel + ls.length + 1 + 1) (encodeString s0.data ++ itemsSep ls tail)
        = some (stringsJval (s0 :: ls), tail) := by
  intro ls
  induction ls with
  | nil =>
    intro s0 fuel tail
    rw [parseJArrItems]
    rw [show fuel + [].length + 1 = fuel + 0 + 1 from rfl]
    rw [parseJ_encodeString (fuel + 0) s0.data (itemsSep [] tail)]
    show (match skipWs (itemsSep [] tail) with
      | [] => none
      | d :: r2 =>
        if d = ',' then
          match parseJArrItems (fuel + 0 + 1) r2 with
          | some (xs, r3) => some (Jval.jstr s0.data :: xs, r3)
          | none => none
        else if d = ']' then some ([Jval.jstr s0.data], r2)
        else none) = some (stringsJval [s0], tail)
    rw [show skipWs (itemsSep [] tail) = ']' :: tail from rfl]
    show (if (']' : Char) = ',' then _ else if (']' : Char) = ']' then
      some ([Jval.jstr s0.data], tail) else none) = some (stringsJval [s0], tail)
    rw [if_neg (by decide), if_pos rfl]
    rfl
  | cons s1 ls' ih =>
    intro s0 fuel tail
    have hlen : fuel + (s1 :: ls').length + 1 + 1 = (fuel + 1) + ls'.length + 1 + 1 := by
      simp only [List.length_cons]
      omega
    rw [hlen, parseJArrItems]
    rw [parseJ_encodeString (fuel + 1 + ls'.length) s0.data (itemsSep (s1 :: ls') tail)]
    dsimp only
    rw [show skipWs (itemsSep (s1 :: ls') tail) =
      ',' :: (encodeLinesItems (s1 :: ls') ++ ('\n' :: (' ' :: (' ' :: (']' :: tail))))) from rfl]
    dsimp only
    rw [if_pos rfl]
    rw [encodeLinesItems_shift ls' s1 tail]
    have h2 : fuel + 1 + ls'.length + 1 = fuel + ls'.length + 1 + 1 := by omega
    rw [h2]
    rw [parseJArrItems_skipWs (fuel + ls'.length)
      (nlIndent2 ++ (encodeString s1.data ++ itemsSep ls' tail))]
    rw [skipWs_ws_append nlIndent2 (encodeString s1.data ++ itemsSep ls' tail) (by decide)]
    rw [encodeString_cons]
    rw [show ('"' :: (escapeList s1.data ++ ['"'])) ++ itemsSep ls' tail =
      '"' :: ((escapeList s1.data ++ ['"']) ++ itemsSep ls' tail) from rfl]
    rw [skipWs_cons_not '"' _ (by decide)]
    rw [show '"' :: ((escapeList s1.data ++ ['"']) ++ itemsSep ls' tail) =
      encodeString s1.data ++ itemsSep ls' tail from by rw [encodeString_cons]; simp]
    rw [ih s1 fuel tail]
    rfl

lemma parseJ_lastLines (fuel : Nat) (ls : List String) (tail : List Char) :
    parseJ (fuel + ls.length + 1 + 1 + 1) (encodeLastLines ls ++ tail)
      = some (.jarr (stringsJval ls), tail) := by
  cases ls with
  | nil =>
    show parseJ (fuel + 0 + 1 + 1 + 1) ('[' :: (']' :: tail)) = some (.jarr (stringsJval []), tail)
    rw [parseJ]
    rw [skipWs_cons_not '[' _ (by decide)]
    dsimp only
    rw [if_neg (by decide), if_neg (by decide), if_neg (by decide), if_neg (by decide),
      if_pos rfl]
    rw [skipWs_cons_not ']' _ (by decide)]
    dsimp only
    rw [if_pos rfl]
    rfl
  | cons s1 ls' =>
    have hshape : encodeLastLines (s1 :: ls') ++ tail =
        '[' :: (encodeLinesItems (s1 :: ls') ++ ('\n' :: (' ' :: (' ' :: (']' :: tail))))) := by
      show ('[' :: (encodeLinesItems (s1 :: ls') ++ ('\n' :: (' ' :: (' ' :: [']'])))))
        ++ tail = _
      simp [List.append_assoc]
    rw [hshape, parseJ]
    rw [skipWs_cons_not '[' _ (by decide)]
    dsimp only
    rw [if_neg (by decide), if_neg (by decide), if_neg (by decide), if_neg (by decide),
      if_pos rfl]
    rw [encodeLinesItems_shift ls' s1 tail]
    rw [skipWs_ws_append nlIndent2 _ (by decide)]
    rw [encodeString_cons]
    rw [show ('"' :: (escapeList s1.data ++ ['"'])) ++ itemsSep ls' tail =
      '"' :: ((escapeList s1.data ++ ['"']) ++ itemsSep ls' tail) from rfl]
    rw [skipWs_cons_not '"' _ (by decide)]
    dsimp only
    rw [if_neg (by decide)]
    rw [show '"' :: ((escapeList s1.data ++ ['"']) ++ itemsSep ls' tail) =
      encodeString s1.data ++ itemsSep ls' tail from by rw [encodeString_cons]; simp]
    have h2 : fuel + (s1 :: ls').length + 1 + 1 = (fuel + 1) + ls'.length + 1 + 1 := by
      simp only [List.length_cons]
      omega
    rw [h2, parseJArrItems_strings ls' s1 (fuel + 1) tail]

lemma parseJObjFields_step (F : Nat) (k vtext tail : List Char) (v : Jval)
    (hk : escapeList k = k)
    (hv : parseJ F (' ' :: (vtext ++ tail)) = some (v, tail)) :
    parseJObjFields (F + 1) (keyValue k vtext tail) =
      (match skipWs tail with
      | [] => none
      | d :: r5 =>
        if d = ',' then
          match parseJObjFields F r5 with
          | some (fs, r6) => some ((k, v) :: fs, r6)
          | none => none
        else if d = jsonRBrace then some ([(k, v)], r5)
        else none) := by
  rw [parseJObjFields]
  rw [show keyValue k vtext tail =
    '"' :: (k ++ ('"' :: (':' :: (' ' :: (vtext ++ tail))))) from rfl]
  rw [skipWs_cons_not '"' _ (by decide)]
  dsimp only
  rw [if_pos rfl]
  rw [show k ++ ('"' :: (':' :: (' ' :: (vtext ++ tail)))) =
    escapeList k ++ ('"' :: (':' :: (' ' :: (vtext ++ tail)))) from by rw [hk]]
  rw [parseStringBody_escape]
  dsimp only
  rw [skipWs_cons_not ':' _ (by decide)]
  dsimp only
  rw [if_pos rfl]
  rw [hv]

/-! ### Assembling the object: the nine fields of `marshalStatus` in turn -/

lemma parseJ_sp (fuel : Nat) (x : List Char) :
    parseJ (fuel + 1) (' ' :: x) = parseJ (fuel + 1) x := by
  have h := parseJ_ws_prefix fuel [' '] x (by decide)
  simpa using h

lemma parseJObjFields_ws (fuel : Nat) (pre x : List Char)
    (h : ∀ c ∈ pre, isJsonWs c = true) :
    parseJObjFields (fuel + 1) (pre ++ x) = parseJObjFields (fuel + 1) x := by
  conv_lhs => rw [parseJObjFields]
  conv_rhs => rw [parseJObjFields]
  rw [skipWs_ws_append pre x h]

/-- The nine fields `json.Unmarshal` sees in a `marshalStatus` document. -/
def statusFields (st : Status) : List (List Char × Jval) :=
  [("state".data, .jstr st.state.data),
   ("command".data, .jstr st.command.data),
   ("pid".data, .jnum st.pid),
   ("start_time".data, .jstr (renderDateTime st.startTime)),
   ("updated_at".data, .jstr (renderDateTime st.updatedAt)),
   ("last_lines".data, .jarr (stringsJval st.lastLines)),
   ("last_line".data, .jstr st.lastLine.data),
   ("prompt_matched".data, .jbool st.promptMatched),
   ("idle_seconds".data, .jnum (st.idleSeconds : Int))]

lemma objFields_idle (fuel : Nat) (m : Nat) :
    parseJObjFields (fuel + 1 + 1)
      (keyValue "idle_seconds".data (natToChars m) ('\n' :: [jsonRBrace]))
      = some ([("idle_seconds".data, .jnum (m : Int))], []) := by
  rw [parseJObjFields_step (fuel + 1) "idle_seconds".data (natToChars m)
    ('\n' :: [jsonRBrace]) (.jnum (m : Int)) (by decide)
    (by rw [parseJ_sp]
        exact parseJ_natChars fuel m _
          (by intro c hc; simp at hc; subst hc; decide))]
  rw [show skipWs ('\n' :: [jsonRBrace]) = [jsonRBrace] from by decide]
  dsimp only
  rw [if_neg (by decide), if_pos rfl]

lemma objFields_prompt (fuel : Nat) (b : Bool) (m : Nat) :
    parseJObjFields (fuel + 1 + 1 + 1)
      (keyValue "prompt_matched".data (encodeBool b) (',' :: (nlIndent ++
        keyValue "idle_seconds".data (natToChars m) ('\n' :: [jsonRBrace]))))
      = some ([("prompt_matched".data, .jbool b),
               ("idle_seconds".data, .jnum (m : Int))], []) := by
  rw [parseJObjFields_step (fuel + 1 + 1) "prompt_matched".data (encodeBool b)
    _ (.jbool b) (by decide)
    (by rw [parseJ_sp]
        exact parseJ_encodeBool (fuel + 1) b _)]
  rw [skipWs_cons_not ',' _ (by decide)]
  dsimp only
  rw [if_pos rfl]
  rw [parseJObjFields_ws (fuel + 1) nlIndent _ (by decide)]
  rw [objFields_idle fuel m]

lemma objFields_lastline (fuel : Nat) (s7 : List Char) (b : Bool) (m : Nat) :
    parseJObjFields (fuel + 1 + 1 + 1 + 1)
      (keyValue "last_line".data (encodeString s7) (',' :: (nlIndent ++
        keyValue "prompt_matched".data (encodeBool b) (',' :: (nlIndent ++
        keyValue "idle_seconds".data (natToChars m) ('\n' :: [jsonRBrace]))))))
      = some ([("last_line".data, .jstr s7),
               ("prompt_matched".data, .jbool b),
               ("idle_seconds".data, .jnum (m : Int))], []) := by
  rw [parseJObjFields_step (fuel + 1 + 1 + 1) "last_line".data (encodeString s7)
    _ (.jstr s7) (by decide)
    (by rw [parseJ_sp]
        exact parseJ_encodeString (fuel + 1 + 1) s7 _)]
  rw [skipWs_cons_not ',' _ (by decide)]
  dsimp only
  rw [if_pos rfl]
  rw [parseJObjFields_ws (fuel + 1 + 1) nlIndent _ (by decide)]
  rw [objFields_prompt fuel b m]

lemma objFields_lines (fuel : Nat) (ls : List String) (s7 : List Char)
    (b : Bool) (m : Nat) :
    parseJObjFields (fuel + ls.length + 1 + 1 + 1 + 1 + 1)
      (keyValue "last_lines".data (encodeLastLines ls) (',' :: (nlIndent ++
        keyValue "last_line".data (encodeString s7) (',' :: (nlIndent ++
        keyValue "prompt_matched".data (encodeBool b) (',' :: (nlIndent ++
        keyValue "idle_seconds".data (natToChars m) ('\n' :: [jsonRBrace]))))))))
      = some ([("last_lines".data, .jarr (stringsJval ls)),
               ("last_line".data, .jstr s7),
               ("prompt_matched".data, .jbool b),
               ("idle_seconds".data, .jnum (m : Int))], []) := by
  rw [parseJObjFields_step (fuel + ls.length + 1 + 1 + 1 + 1) "last_lines".data
    (encodeLastLines ls) _ (.jarr (stringsJval ls)) (by decide)
    (by rw [parseJ_sp]
        have h : fuel + ls.length + 1 + 1 + 1 + 1 = (fuel + 1) + ls.length + 1 + 1 + 1 := by
          omega
        rw [h]
        exact parseJ_lastLines (fuel + 1) ls _)]
  rw [skipWs_cons_not ',' _ (by decide)]
  dsimp only
  rw [if_pos rfl]
  rw [parseJObjFields_ws (fuel + ls.length + 1 + 1 + 1) nlIndent _ (by decide)]
  rw [objFields_lastline (fuel + ls.length) s7 b m]

lemma objFields_updated (fuel : Nat) (t5 : List Char) (ls : List String)
    (s7 : List Char) (b : Bool) (m : Nat) :
    parseJObjFields (fuel + ls.length + 1 + 1 + 1 + 1 + 1 + 1)
      (keyValue "updated_at".data (encodeString t5) (',' :: (nlIndent ++
        keyValue "last_lines".data (encodeLastLines ls) (',' :: (nlIndent ++
        keyValue "last_line".data (encodeString s7) (',' :: (nlIndent ++
        keyValue "prompt_matched".data (encodeBool b) (',' :: (nlIndent ++
        keyValue "idle_seconds".data (natToChars m) ('\n' :: [jsonRBrace]))))))))))
      = some ([("updated_at".data, .jstr t5),
               ("last_lines".data, .jarr (stringsJval ls)),
               ("last_line".data, .jstr s7),
               ("prompt_matched".data, .jbool b),
               ("idle_seconds".data, .jnum (m : Int))], []) := by
  rw [parseJObjFields_step (fuel + ls.length + 1 + 1 + 1 + 1 + 1) "updated_at".data
    (encodeString t5) _ (.jstr t5) (by decide)
    (by rw [parseJ_sp]
        exact parseJ_encodeString (fuel + ls.length + 1 + 1 + 1 + 1) t5 _)]
  rw [skipWs_cons_not ',' _ (by decide)]
  dsimp only
  rw [if_pos rfl]
  rw [parseJObjFields_ws (fuel + ls.length + 1 + 1 + 1 + 1) nlIndent _ (by decide)]
  rw [objFields_lines fuel ls s7 b m]

lemma objFields_start (fuel : Nat) (t4 t5 : List Char) (ls : List String)
    (s7 : List Char) (b : Bool) (m : Nat) :
    parseJObjFields (fuel + ls.length + 1 + 1 + 1 + 1 + 1 + 1 + 1)
      (keyValue "start_time".data (encodeString t4) (',' :: (nlIndent ++
        keyValue "updated_at".data (encodeString t5) (',' :: (nlIndent ++
        keyValue "last_lines".data (encodeLastLines ls) (',' :: (nlIndent ++
        keyValue "last_line".data (encodeString s7) (',' :: (nlIndent ++
        keyValue "prompt_matched".data (encodeBool b) (',' :: (nlIndent ++
        keyValue "idle_seconds".data (natToChars m) ('\n' :: [jsonRBrace]))))))))))))
      = some ([("start_time".data, .jstr t4),
               ("updated_at".data, .jstr t5),
               ("last_lines".data, .jarr (stringsJval ls)),
               ("last_line".data, .jstr s7),
               ("prompt_matched".data, .jbool b),
               ("idle_seconds".data, .jnum (m : Int))], []) := by
  rw [parseJObjFields_step (fuel + ls.length + 1 + 1 + 1 + 1 + 1 + 1) "start_time".data
    (encodeString t4) _ (.jstr t4) (by decide)
    (by rw [parseJ_sp]
        exact parseJ_encodeString (fuel + ls.length + 1 + 1 + 1 + 1 + 1) t4 _)]
  rw [skipWs_cons_not ',' _ (by decide)]
  dsimp only
  rw [if_pos rfl]
  rw [parseJObjFields_ws (fuel + ls.length + 1 + 1 + 1 + 1 + 1) nlIndent _ (by decide)]
  rw [objFields_updated fuel t5 ls s7 b m]

lemma objFields_pid (fuel : Nat) (p : Int) (t4 t5 : List Char) (ls : List String)
    (s7 : List Char) (b : Bool) (m : Nat) :
    parseJObjFields (fuel + ls.length + 1 + 1 + 1 + 1 + 1 + 1 + 1 + 1)
      (keyValue "pid".data (intToChars p) (',' :: (nlIndent ++
        keyValue "start_time".data (encodeString t4) (',' :: (nlIndent ++
        keyValue "updated_at".data (encodeString t5) (',' :: (nlIndent ++
        keyValue "last_lines".data (encodeLastLines ls) (',' :: (nlIndent ++
        keyValue "last_line".data (encodeString s7) (',' :: (nlIndent ++
        keyValue "prompt_matched".data (encodeBool b) (',' :: (nlIndent ++
        keyValue "idle_seconds".data (natToChars m) ('\n' :: [jsonRBrace]))))))))))))))
      = some ([("pid".data, .jnum p),
               ("start_time".data, .jstr t4),
               ("updated_at".data, .jstr t5),
               ("last_lines".data, .jarr (stringsJval ls)),
               ("last_line".data, .jstr s7),
               ("prompt_matched".data, .jbool b),
               ("idle_seconds".data, .jnum (m : Int))], []) := by
  rw [parseJObjFields_step (fuel + ls.length + 1 + 1 + 1 + 1 + 1 + 1 + 1) "pid".data
    (intToChars p) _ (.jnum p) (by decide)
    (by rw [parseJ_sp]
        exact parseJ_intChars (fuel + ls.length + 1 + 1 + 1 + 1 + 1 + 1) p _
          (by intro c hc; simp at hc; subst hc; decide))]
  rw [skipWs_cons_not ',' _ (by decide)]
  dsimp only
  rw [if_pos rfl]
  rw [parseJObjFields_ws (fuel + ls.length + 1 + 1 + 1 + 1 + 1 + 1) nlIndent _ (by decide)]
  rw [objFields_start fuel t4 t5 ls s7 b m]

lemma objFields_command (fuel : Nat) (s2 : List Char) (p : Int) (t4 t5 : List Char)
    (ls : List String) (s7 : List Char) (b : Bool) (m : Nat) :
    parseJObjFields (fuel + ls.length + 1 + 1 + 1 + 1 + 1 + 1 + 1 + 1 + 1)
      (keyValue "command".data (encodeString s2) (',' :: (nlIndent ++
        keyValue "pid".data (intToChars p) (',' :: (nlIndent ++
        keyValue "start_time".data (encodeString t4) (',' :: (nlIndent ++
        keyValue "updated_at".data (encodeString t5) (',' :: (nlIndent ++
        keyValue "last_lines".data (encodeLastLines ls) (',' :: (nlIndent ++
        keyValue "last_line".data (encodeString s7) (',' :: (nlIndent ++
        keyValue "prompt_matched".data (encodeBool b) (',' :: (nlIndent ++
        keyValue "idle_seconds".data (natToChars m) ('\n' :: [jsonRBrace]))))))))))))))))
      = some ([("command".data, .jstr s2),
               ("pid".data, .jnum p),
               ("start_time".data, .jstr t4),
               ("updated_at".data, .jstr t5),
               ("last_lines".data, .jarr (stringsJval ls)),
               ("last_line".data, .jstr s7),
               ("prompt_matched".data, .jbool b),
               ("idle_seconds".data, .jnum (m : Int))], []) := by
  rw [parseJObjFields_step (fuel + ls.length + 1 + 1 + 1 + 1 + 1 + 1 + 1 + 1) "command".data
    (encodeString s2) _ (.jstr s2) (by decide)
    (by rw [parseJ_sp]
        exact parseJ_encodeString (fuel + ls.length + 1 + 1 + 1 + 1 + 1 + 1 + 1) s2 _)]
  rw [skipWs_cons_not ',' _ (by decide)]
  dsimp only
  rw [if_pos rfl]
  rw [parseJObjFields_ws (fuel + ls.length + 1 + 1 + 1 + 1 + 1 + 1 + 1) nlIndent _ (by decide)]
  rw [objFields_pid fuel p t4 t5 ls s7 b m]

lemma objFields_state (fuel : Nat) (s1 s2 : List Char) (p : Int) (t4 t5 : List Char)
    (ls : List String) (s7 : List Char) (b : Bool) (m : Nat) :
    parseJObjFields (fuel + ls.length + 1 + 1 + 1 + 1 + 1 + 1 + 1 + 1 + 1 + 1)
      (keyValue "state".data (encodeString s1) (',' :: (nlIndent ++
        keyValue "command".data (encodeString s2) (',' :: (nlIndent ++
        keyValue "pid".data (intToChars p) (',' :: (nlIndent ++
        keyValue "start_time".data (encodeString t4) (',' :: (nlIndent ++
        keyValue "updated_at".data (encodeString t5) (',' :: (nlIndent ++
        keyValue "last_lines".data (encodeLastLines ls) (',' :: (nlIndent ++
        keyValue "last_line".data (encodeString s7) (',' :: (nlIndent ++
        keyValue "prompt_matched".data (encodeBool b) (',' :: (nlIndent ++
        keyValue "idle_seconds".data (natToChars m) ('\n' :: [jsonRBrace]))))))))))))))))))
      = some ([("state".data, .jstr s1),
               ("command".data, .jstr s2),
               ("pid".data, .jnum p),
               ("start_time".data, .jstr t4),
               ("updated_at".data, .jstr t5),
               ("last_lines".data, .jarr (stringsJval ls)),
               ("last_line".data, .jstr s7),
               ("prompt_matched".data, .jbool b),
               ("idle_seconds".data, .jnum (m : Int))], []) := by
  rw [parseJObjFields_step (fuel + ls.length + 1 + 1 + 1 + 1 + 1 + 1 + 1 + 1 + 1) "state".data
    (encodeString s1) _ (.jstr s1) (by decide)
    (by rw [parseJ_sp]
        exact parseJ_encodeString (fuel + ls.length + 1 + 1 + 1 + 1 + 1 + 1 + 1 + 1) s1 _)]
  rw [skipWs_cons_not ',' _ (by decide)]
  dsimp only
  rw [if_pos rfl]
  rw [parseJObjFields_ws (fuel + ls.length + 1 + 1 + 1 + 1 + 1 + 1 + 1 + 1) nlIndent _ (by decide)]
  rw [objFields_command fuel s2 p t4 t5 ls s7 b m]

lemma skipWs_keyValue (k vt t : List Char) : skipWs (keyValue k vt t) = keyValue k vt t := by
  rw [show keyValue k vt t = '"' :: (k ++ ('"' :: (':' :: (' ' :: (vt ++ t))))) from rfl]
  exact skipWs_cons_not '"' _ (by decide)

lemma parseJ_objDoc (F : Nat) (k vt rest : List Char)
    (fs : List (List Char × Jval)) (r : List Char)
    (h : parseJObjFields F (keyValue k vt rest) = some (fs, r)) :
    parseJ (F + 1) (jsonLBrace :: (nlIndent ++ keyValue k vt rest)) = some (.jobj fs, r) := by
  rw [parseJ]
  rw [skipWs_cons_not jsonLBrace _ (by decide)]
  dsimp only
  rw [if_neg (by decide), if_neg (by decide), if_neg (by decide), if_neg (by decide),
    if_neg (by decide), if_pos rfl]
  rw [skipWs_ws_append nlIndent _ (by decide), skipWs_keyValue]
  rw [show keyValue k vt rest = '"' :: (k ++ ('"' :: (':' :: (' ' :: (vt ++ rest))))) from rfl]
  dsimp only
  rw [if_neg (by decide)]
  rw [show ('"' : Char) :: (k ++ ('"' :: (':' :: (' ' :: (vt ++ rest))))) = keyValue k vt rest from rfl]
  rw [h]

lemma parseJ_marshalStatus (fuel : Nat) (st : Status) :
    parseJ (fuel + st.lastLines.length + 1 + 1 + 1 + 1 + 1 + 1 + 1 + 1 + 1 + 1 + 1)
      (marshalStatus st) = some (.jobj (statusFields st), []) :=
  parseJ_objDoc (fuel + st.lastLines.length + 1 + 1 + 1 + 1 + 1 + 1 + 1 + 1 + 1 + 1)
    "state".data (encodeString st.state.data) _ (statusFields st) []
    (objFields_state fuel st.state.data st.command.data st.pid
      (renderDateTime st.startTime) (renderDateTime st.updatedAt) st.lastLines
      st.lastLine.data st.promptMatched st.idleSeconds)

lemma mapM_stringsJval (ls : List String) : (stringsJval ls).mapM jstrListElem = some ls := by
  induction ls with
  | nil => rfl
  | cons s rest ih =>
    show ((Jval.jstr s.data) :: stringsJval rest).mapM jstrListElem = some (s :: rest)
    rw [List.mapM_cons]
    rw [show jstrListElem (.jstr s.data) = some s from rfl]
    rw [ih]
    rfl

lemma statusOfJval_statusFields (st : Status)
    (h4 : dtValid st.startTime) (h5 : dtValid st.updatedAt) :
    statusOfJval (.jobj (statusFields st)) = some st := by
  have h1 : jlookupLast (statusFields st) "state".data = some (.jstr st.state.data) := by
    simp +decide [jlookupLast, statusFields]
  have h2 : jlookupLast (statusFields st) "command".data = some (.jstr st.command.data) := by
    simp +decide [jlookupLast, statusFields]
  have h3 : jlookupLast (statusFields st) "pid".data = some (.jnum st.pid) := by
    simp +decide [jlookupLast, statusFields]
  have h4' : jlookupLast (statusFields st) "start_time".data
      = some (.jstr (renderDateTime st.startTime)) := by
    simp +decide [jlookupLast, statusFields]
  have h5' : jlookupLast (statusFields st) "updated_at".data
      = some (.jstr (renderDateTime st.updatedAt)) := by
    simp +decide [jlookupLast, statusFields]
  have h6 : jlookupLast (statusFields st) "last_lines".data
      = some (.jarr (stringsJval st.lastLines)) := by
    simp +decide [jlookupLast, statusFields]
  have h7 : jlookupLast (statusFields st) "last_line".data = some (.jstr st.lastLine.data) := by
    simp +decide [jlookupLast, statusFields]
  have h8 : jlookupLast (statusFields st) "prompt_matched".data
      = some (.jbool st.promptMatched) := by
    simp +decide [jlookupLast, statusFields]
  have h9 : jlookupLast (statusFields st) "idle_seconds".data
      = some (.jnum (st.idleSeconds : Int)) := by
    simp +decide [jlookupLast, statusFields]
  rw [statusOfJval, h1, h2, h3, h4', h5', h6, h7, h8, h9]
  dsimp only [asStr, asInt, asBool, asTime, asStrList]
  rw [parseDateTime_renderDateTime st.startTime h4,
    parseDateTime_renderDateTime st.updatedAt h5]
  rw [mapM_stringsJval]
  dsimp only
  rw [if_pos (Int.ofNat_nonneg st.idleSeconds)]
  rw [show ((st.idleSeconds : Int)).toNat = st.idleSeconds from Int.toNat_ofNat st.idleSeconds]

lemma encodeLinesItems_length (ls : List String) :
    ls.length ≤ (encodeLinesItems ls).length := by
  induction ls with
  | nil => simp [encodeLinesItems]
  | cons s rest ih =>
    cases rest with
    | nil => simp [encodeLinesItems, nlIndent2, encodeString]
    | cons t ts =>
      rw [show encodeLinesItems (s :: t :: ts)
        = nlIndent2 ++ (encodeString s.data ++ (',' :: encodeLinesItems (t :: ts))) from rfl]
      simp only [List.length_append, List.length_cons, nlIndent2, encodeString]
      simp only [List.length_cons, List.length_append, List.length_nil] at *
      omega

lemma encodeLastLines_length (ls : List String) :
    ls.length ≤ (encodeLastLines ls).length := by
  have h := encodeLinesItems_length ls
  cases ls with
  | nil => simp [encodeLastLines]
  | cons a l =>
    rw [show encodeLastLines (a :: l)
      = '[' :: (encodeLinesItems (a :: l) ++ ('\n' :: (' ' :: (' ' :: [']'])))) from rfl]
    simp only [List.length_cons, List.length_append] at *
    omega

lemma marshalStatus_length (st : Status) :
    st.lastLines.length + 10 ≤ (marshalStatus st).length := by
  have h := encodeLastLines_length st.lastLines
  simp only [marshalStatus, keyValue, nlIndent, List.length_append, List.length_cons]
  omega

lemma unmarshalStatus_marshalStatus (st : Status)
    (h4 : dtValid st.startTime) (h5 : dtValid st.updatedAt) :
    unmarshalStatus (marshalStatus st) = some st := by
  unfold unmarshalStatus
  have hlen := marshalStatus_length st
  have hfuel : (marshalStatus st).length + 1
      = ((marshalStatus st).length - st.lastLines.length - 10) + st.lastLines.length
        + 1 + 1 + 1 + 1 + 1 + 1 + 1 + 1 + 1 + 1 + 1 := by
    omega
  rw [hfuel, parseJ_marshalStatus]
  dsimp only
  rw [show skipWs ([] : List Char) = [] from rfl, if_pos rfl]
  exact statusOfJval_statusFields st h4 h5

/-! ### The store: `atomicWriteFile` and `readStatusWithLock` over a
name-indexed file system (temp-file creation, write, sync, chmod and the
shared lock change no contents in this single-writer view; `rename`
atomically installs the temp file under the target name) -/

def FS : Type := String → Option (List Char)

def fsWrite (fs : FS) (name : String) (data : List Char) : FS :=
  fun n => if n = name then some data else fs n

/-- `os.Rename(src, dst)`: `dst` now holds `src`'s contents, `src` is gone. -/
def fsRename (fs : FS) (src dst : String) : FS :=
  fun n => if n = dst then fs src else if n = src then none else fs n

/-- `atomicWriteFile` (src/notify.go 265-311): create a temp file in the
directory, write the serialized bytes, sync, chmod, then rename onto the
target; only the write and the rename touch contents. -/
def atomicWriteFile (fs : FS) (filename : String) (data : List Char)
    (tmpName : String) : FS :=
  fsRename (fsWrite fs tmpName data) tmpName filename

/-- `readStatusWithLock` (src/notify.go 238-263): open, flock `LOCK_SH`,
`io.ReadAll`, `json.Unmarshal` into `Status`. -/
def readStatusWithLock (fs : FS) (filename : String) : Option Status :=
  match fs filename with
  | none => none
  | some bytes => unmarshalStatus bytes

/-- C5: round trip of the Status Store. Writing any `Status` record whose
two timestamps are calendar-valid (as every `time.Time` rendered at second
precision is) through the atomic-write path — serialize with
`json.MarshalIndent`, write to a temp file, sync, chmod, rename onto the
target — and reading the target back through the shared-lock read path
yields exactly the record written, every field equal, timestamps to the
second. -/
theorem status_roundtrip_atomic_write_locked_read (fs : FS)
    (filename tmpName : String) (st : Status)
    (h4 : dtValid st.startTime) (h5 : dtValid st.updatedAt) :
    readStatusWithLock
      (atomicWriteFile fs filename (marshalStatus st) tmpName) filename
      = some st := by
  unfold readStatusWithLock atomicWriteFile fsRename fsWrite
  rw [if_pos rfl, if_pos rfl]
  exact unmarshalStatus_marshalStatus st h4 h5

/-- Witness: the round trip evaluated on a concrete record. -/
theorem status_roundtrip_atomic_write_locked_read_witness :
    dtValid (DateTime.mk 2024 1 2 3 4 5) ∧ dtValid (DateTime.mk 2024 1 2 3 4 6) ∧
    readStatusWithLock
      (atomicWriteFile (fun _ => none) "kiro-1234.json"
        (marshalStatus ⟨"running", "kiro --watch", 1234,
          DateTime.mk 2024 1 2 3 4 5, DateTime.mk 2024 1 2 3 4 6,
          ["line <one>", "!> "], "!> ", true, 7⟩)
        ".kiromon-55.tmp")
      "kiro-1234.json"
      = some ⟨"running", "kiro --watch", 1234,
          DateTime.mk 2024 1 2 3 4 5, DateTime.mk 2024 1 2 3 4 6,
          ["line <one>", "!> "], "!> ", true, 7⟩ :=
  ⟨by decide, by decide,
    status_roundtrip_atomic_write_locked_read (fun _ => none)
      "kiro-1234.json" ".kiromon-55.tmp" _ (by decide) (by decide)⟩
